import Mathlib

/-!
Shallow embedding, in Lean 4, of the ledger and accrual engine of the
malibagsomiti backend (Express/Mongoose controllers).  Dates are modelled as
linear month indices (`year * 12 + month`), money amounts as rationals, and
the Mongo collections as Lean lists with numeric ids.  Each definition below
is translated from the controller it is named after.
-/

namespace Somiti

/-- Effect of the JS expression `x || d` on a numeric field: the default `d`
is used when the stored value is `0` (or absent, which we encode as `0`). -/
def jsOr (x d : Nat) : Nat := if x = 0 then d else x

/-- Effect of JS `Math.round`: round half toward positive infinity. -/
def jsRound (q : ℚ) : ℤ := ⌊q + 1 / 2⌋

/-- Member document (`models/User.js`): the fields the ledger engine reads.
`joinMonth` is the linear month index of `joiningDate`; `totalDeposited` is
the cached lifetime deposit counter. -/
structure Member where
  id : Nat
  shares : Nat
  monthlySubscription : Nat
  joinMonth : Nat
  totalDeposited : ℚ
deriving DecidableEq, Repr

/-- Fine policy singleton (`models/FineSetting.js`). -/
structure FineSettings where
  gracePeriodMonths : Nat
  finePercentage : ℚ
deriving DecidableEq, Repr

/-- Return value of `memberController.calculateFineLogic`. -/
structure FineResult where
  fine : ℚ
  months : Nat
  totalReduced : ℚ
deriving DecidableEq, Repr

/-- Return value of `financeController.calculateFineLogic` (it additionally
reports `dueAmount`). -/
structure FineResultF where
  fine : ℚ
  months : ℤ
  dueAmount : ℚ
  totalReduced : ℚ
deriving DecidableEq, Repr

/-- The `monthlyInstallment` computed by both calculators:
`(member.shares || 1) * (member.monthlySubscription || 1000)`. -/
def monthlyInstallment (m : Member) : ℚ :=
  (jsOr m.shares 1 : ℚ) * (jsOr m.monthlySubscription 1000 : ℚ)

/-- The `while (checkDate < firstOfCurrentMonth)` loop of
`memberController.calculateFineLogic`, iterating one calendar month at a
time.  `check` is the month index of `checkDate`, `today` the month index of
the current date; `monthsAgoFinished` is `today - check - 1`. -/
def fineIter (rate : ℚ) (grace today check : Nat) (gross : ℚ) (cnt : Nat) : ℚ × Nat :=
  if check < today then
    if grace < today - check - 1 then
      fineIter rate grace today (check + 1)
        (gross + ((today - check - 1 : Nat) : ℚ) * rate) (cnt + 1)
    else
      fineIter rate grace today (check + 1) gross cnt
  else (gross, cnt)
termination_by today - check

/-- Translation of `calculateFineLogic` of `src/controllers/memberController.js`
(lines 2340-2396): time-weighted iteration over every month from the first
month after joining up to (excluding) the current month, followed by
`Math.max(0, Math.round(grossFine) - totalReduced)`. -/
def calculateFineLogicMember (m : Member) (s : FineSettings) (totalReduced : ℚ)
    (today : Nat) : FineResult :=
  let rate := monthlyInstallment m * s.finePercentage / 100
  let r := fineIter rate s.gracePeriodMonths today (m.joinMonth + 1) 0 0
  { fine := max 0 ((jsRound r.1 : ℚ) - totalReduced)
    months := r.2
    totalReduced := totalReduced }

/-- Translation of `calculateFineLogic` of `src/controllers/financeController.js`
(lines 1923-1966): a flat formula, `overdueMonths = monthsSinceJoining - grace`
and `grossFine = round(overdueMonths * monthlyFineRate)`. -/
def calculateFineLogicFinance (m : Member) (s : FineSettings) (totalReduced : ℚ)
    (today : Nat) : FineResultF :=
  let total : ℤ := (today : ℤ) - (m.joinMonth : ℤ)
  if (s.gracePeriodMonths : ℤ) < total then
    let overdue : ℤ := total - (s.gracePeriodMonths : ℤ)
    let installment : ℚ := monthlyInstallment m
    let rate : ℚ := installment * s.finePercentage / 100
    let gross : ℤ := jsRound ((overdue : ℚ) * rate)
    { fine := max 0 ((gross : ℚ) - totalReduced)
      months := overdue
      dueAmount := installment * (overdue : ℚ)
      totalReduced := totalReduced }
  else
    { fine := 0, months := 0, dueAmount := 0, totalReduced := 0 }

/-- The set of overdue months named by the specification: completed calendar
months `c` after the joining month and before the current month whose
`monthsAgoFinished = today - c - 1` strictly exceeds the grace period. -/
def overdueMonthsSpec (grace today join : Nat) : Finset Nat :=
  (Finset.Ico (join + 1) today).filter (fun c => grace < today - c - 1)

/-- The gross fine named by the specification: each overdue month `c`
contributes `monthsAgoFinished * monthlyFineRate`. -/
def grossFineSpec (rate : ℚ) (grace today join : Nat) : ℚ :=
  Finset.sum (overdueMonthsSpec grace today join)
    (fun c => ((today - c - 1 : Nat) : ℚ) * rate)

/-- Restatement of the accrual algorithm exactly as the specification words
it, with a closed-form sum in place of the loop. -/
def claimFineSpec (m : Member) (s : FineSettings) (totalReduced : ℚ)
    (today : Nat) : FineResult :=
  let rate := monthlyInstallment m * s.finePercentage / 100
  { fine := max 0 ((jsRound (grossFineSpec rate s.gracePeriodMonths today m.joinMonth) : ℚ)
      - totalReduced)
    months := (overdueMonthsSpec s.gracePeriodMonths today m.joinMonth).card
    totalReduced := totalReduced }

/-- Bank account document (`models/BankAccount.js`). -/
structure Account where
  id : Nat
  currentBalance : ℚ
  isMotherAccount : Bool
deriving DecidableEq, Repr

/-- Values of the `type` field of a transaction document
(`models/Transaction.js`, plus the `adjustment` value written by
`waiveFinePartial`). -/
inductive TxType
  | deposit
  | expense
  | transfer
  | investment
  | adjustment
deriving DecidableEq, Repr

/-- Ledger entry (`models/Transaction.js`): the fields the engine reads or
writes.  `category` keeps the exact strings from the controllers;
`transferFrom`/`transferTo` model `transferDetails`; `referenceId` is the
optional link to an Investment. -/
structure Entry where
  id : Nat
  user : Option Nat
  txType : TxType
  category : String
  amount : ℚ
  bankAccount : Option Nat
  referenceId : Option Nat
  transferFrom : Option Nat
  transferTo : Option Nat
deriving DecidableEq, Repr

/-- Investment document (`models/Investment.js`). -/
structure Investment where
  id : Nat
  amount : ℚ
  bankAccount : Nat
  totalProfit : ℚ
deriving DecidableEq, Repr

/-- The persistent state: the four Mongo collections plus the fine-policy
singleton.  `nextId` provides fresh `_id`s for created documents. -/
structure State where
  accounts : List Account
  users : List Member
  investments : List Investment
  ledger : List Entry
  fineSettings : Option FineSettings
  nextId : Nat
deriving DecidableEq, Repr

/-- Effect of `Model.findById(i)`: the first document with `_id = i`. -/
def fid {α : Type} (key : α → Nat) : List α → Nat → Option α
  | [], _ => none
  | x :: xs, i => if key x = i then some x else fid key xs i

/-- Effect of `doc.save()` / `findByIdAndUpdate`: overwrite the document
whose `_id` matches (Mongo `_id`s are unique, so at most one matches). -/
def put {α : Type} (key : α → Nat) : List α → α → List α
  | [], _ => []
  | x :: xs, a => if key x = key a then a :: xs else x :: put key xs a

/-- Effect of `findByIdAndDelete` / `doc.deleteOne()`: remove the document
with `_id = i`. -/
def rem {α : Type} (key : α → Nat) : List α → Nat → List α
  | [], _ => []
  | x :: xs, i => if key x = i then xs else x :: rem key xs i

def State.findAccount (s : State) (i : Nat) : Option Account :=
  fid Account.id s.accounts i

def State.findUser (s : State) (i : Nat) : Option Member :=
  fid Member.id s.users i

def State.findInvestment (s : State) (i : Nat) : Option Investment :=
  fid Investment.id s.investments i

def State.putAccount (s : State) (a : Account) : State :=
  { s with accounts := put Account.id s.accounts a }

def State.putUser (s : State) (u : Member) : State :=
  { s with users := put Member.id s.users u }

def State.putInvestment (s : State) (v : Investment) : State :=
  { s with investments := put Investment.id s.investments v }

/-- Effect of `Transaction.create`: append the entry, stamped with a fresh
`_id`. -/
def State.appendEntry (s : State) (e : Nat → Entry) : State :=
  { s with ledger := s.ledger ++ [e s.nextId], nextId := s.nextId + 1 }

/-- The error outcomes raised by the controllers (each constructor stands
for one thrown message / error response). -/
inductive Err
  | accountsMissing
  | insufficientFunds
  | noMotherAccount
  | bankAccountNotFound
  | notFound
  | balanceNotZero
deriving DecidableEq, Repr

/-- Operation result: the post-call state together with an optional error.
A session-wrapped controller aborts on error, so its error state is the
pre-call state; controllers without sessions may leave partial writes. -/
abbrev OpResult := State × Option Err

/-- Effect of JS `str.startsWith`-style prefixing used to implement
`String.prototype.includes`, over character lists. -/
def leadsWith : List Char → List Char → Bool
  | [], _ => true
  | _ :: _, [] => false
  | a :: as, b :: bs => a == b && leadsWith as bs

/-- Substring occurrence over character lists. -/
def containsChars (needle : List Char) : List Char → Bool
  | [] => leadsWith needle []
  | b :: bs => leadsWith needle (b :: bs) || containsChars needle bs

/-- Effect of JS `hay.includes(needle)` on strings. -/
def strIncludes (hay needle : String) : Bool :=
  containsChars needle.toList hay.toList

/-- Translation of `transferBalance` of `src/controllers/bankAccountController.js`
(lines 65-123): guard on both accounts and on the source balance, move the
balance, and record a single `transfer` entry linked to the destination
account, carrying both references in `transferDetails`. -/
def transferBalance (s : State) (fromId toId : Nat) (amount : ℚ) : OpResult :=
  match s.findAccount fromId, s.findAccount toId with
  | some fromAcc, some toAcc =>
    if fromAcc.currentBalance < amount then (s, some .insufficientFunds)
    else
      let s1 := s.putAccount { fromAcc with currentBalance := fromAcc.currentBalance - amount }
      let s2 := s1.putAccount { toAcc with currentBalance := toAcc.currentBalance + amount }
      (s2.appendEntry (fun n =>
        { id := n, user := none, txType := .transfer, category := "internal_transfer"
          amount := amount, bankAccount := some toId, referenceId := none
          transferFrom := some fromId, transferTo := some toId }), none)
  | _, _ => (s, some .accountsMissing)

/-- Translation of `addExpense` of `src/controllers/financeController.js`
(lines 228-275): record the expense entry, then deduct from the bank
balance (no floor check). -/
def addExpense (s : State) (amount : ℚ) (bankAccountId : Nat) (category : String) : OpResult :=
  match s.findAccount bankAccountId with
  | none => (s, some .bankAccountNotFound)
  | some bank =>
    let s1 := s.appendEntry (fun n =>
      { id := n, user := none, txType := .expense, category := category
        amount := amount, bankAccount := some bankAccountId, referenceId := none
        transferFrom := none, transferTo := none })
    (s1.putAccount { bank with currentBalance := bank.currentBalance - amount }, none)

/-- Translation of `addInvestment` of `src/controllers/financeController.js`
(lines 833-959): guard on the funding account and its balance, create the
Investment, debit the account, and append the `investment` capital entry
referencing the new project. -/
def addInvestment (s : State) (amount : ℚ) (bankId : Nat) (adminId : Nat) : OpResult :=
  match s.findAccount bankId with
  | none => (s, some .bankAccountNotFound)
  | some fundingBank =>
    if fundingBank.currentBalance < amount then (s, some .insufficientFunds)
    else
      let invId := s.nextId
      let newInvestment : Investment :=
        { id := invId, amount := amount, bankAccount := bankId, totalProfit := 0 }
      let s1 : State := { s with
        investments := s.investments ++ [newInvestment],
        nextId := s.nextId + 1 }
      let s2 := s1.putAccount { fundingBank with
        currentBalance := fundingBank.currentBalance - amount }
      (s2.appendEntry (fun n =>
        { id := n, user := some adminId, txType := .investment, category := "Investment"
          amount := amount, bankAccount := some bankId, referenceId := some invId
          transferFrom := none, transferTo := none }), none)

/-- Translation of `recordInvestmentProfit` of
`src/controllers/financeController.js` (lines 1120-1203): adjust
`totalProfit` and the bank balance in the same direction and append the
`investment_profit` / `investment_expense` entry referencing the project. -/
def recordInvestmentProfit (s : State) (invId : Nat) (amount : ℚ) (isExpense : Bool)
    (bankAccountId : Nat) : OpResult :=
  match s.findInvestment invId with
  | none => (s, some .notFound)
  | some investment =>
    match s.findAccount bankAccountId with
    | none => (s, some .bankAccountNotFound)
    | some bank =>
      let investment1 := if isExpense then
          { investment with totalProfit := investment.totalProfit - amount }
        else
          { investment with totalProfit := investment.totalProfit + amount }
      let bank1 := if isExpense then
          { bank with currentBalance := bank.currentBalance - amount }
        else
          { bank with currentBalance := bank.currentBalance + amount }
      let s1 := (s.putInvestment investment1).putAccount bank1
      (s1.appendEntry (fun n =>
        { id := n, user := none
          txType := if isExpense then .expense else .deposit
          category := if isExpense then "investment_expense" else "investment_profit"
          amount := amount, bankAccount := some bankAccountId, referenceId := some invId
          transferFrom := none, transferTo := none }), none)

/-- Translation of `deleteInvestment` of `src/controllers/financeController.js`
(lines 1038-1114): when a target bank exists and a (truthy) closing value is
supplied, credit it and record a liquidation `deposit` entry; then remove
the Investment document. -/
def deleteInvestment (s : State) (invId : Nat) (closingValue : Option ℚ)
    (bankOverride : Option Nat) (adminId : Nat) : OpResult :=
  match s.findInvestment invId with
  | none => (s, some .notFound)
  | some investment =>
    let targetId := bankOverride.getD investment.bankAccount
    let s1 :=
      match s.findAccount targetId, closingValue with
      | some targetBank, some cv =>
        if cv = 0 then s
        else
          let sb := s.putAccount { targetBank with
            currentBalance := targetBank.currentBalance + cv }
          sb.appendEntry (fun n =>
            { id := n, user := some adminId, txType := .deposit, category := "Investment"
              amount := cv, bankAccount := some targetId, referenceId := none
              transferFrom := none, transferTo := none })
      | _, _ => s
    ({ s1 with investments := rem Investment.id s1.investments invId }, none)

/-- Translation of `collectPaidFine` of `src/controllers/financeController.js`
(lines 2012-2056): record a `fine_payment` deposit entry and credit the bank;
the member's `totalDeposited` is deliberately left untouched. -/
def collectPaidFine (s : State) (userId : Nat) (amount : ℚ) (bankAccountId : Nat) : OpResult :=
  match s.findAccount bankAccountId with
  | none => (s, some .bankAccountNotFound)
  | some bank =>
    let s1 := s.appendEntry (fun n =>
      { id := n, user := some userId, txType := .deposit, category := "fine_payment"
        amount := amount, bankAccount := some bankAccountId, referenceId := none
        transferFrom := none, transferTo := none })
    (s1.putAccount { bank with currentBalance := bank.currentBalance + amount }, none)

/-- The `totalReduced` aggregation used before each fine computation: the sum
of all `fine_waiver` and `fine_payment` entries recorded for the member. -/
def totalReductions (ledger : List Entry) (userId : Nat) : ℚ :=
  (ledger.filter (fun e =>
    e.user == some userId &&
      (e.category == "fine_waiver" || e.category == "fine_payment"))).foldr
    (fun e acc => e.amount + acc) 0

/-- One iteration of the member loop of `processDeposit` in
`src/controllers/memberController.js` (lines 356-454): optionally collect
the member's current net fine as a `fine_payment` entry, increment
`totalDeposited` by the share amount only, and record the `monthly_deposit`
entry.  `orig` is the pre-batch state (the fine-reduction aggregate runs
outside the session), and the accumulator carries the running
`totalBatchAmount`. -/
def processMember (orig : State) (motherId : Nat) (settings : FineSettings)
    (finePayers : List Nat) (today : Nat) (acc : State × ℚ) (userId : Nat) : State × ℚ :=
  let s := acc.1
  match s.findUser userId with
  | none => acc
  | some user =>
    let shareAmount : ℚ := (jsOr user.shares 1 : ℚ) * 1000
    let fineStep : State × ℚ :=
      if userId ∈ finePayers then
        let totalReduced := totalReductions orig.ledger userId
        let fineCalc := calculateFineLogicMember user settings totalReduced today
        if 0 < fineCalc.fine then
          (s.appendEntry (fun n =>
            { id := n, user := some userId, txType := .deposit, category := "fine_payment"
              amount := fineCalc.fine, bankAccount := some motherId, referenceId := none
              transferFrom := none, transferTo := none }), shareAmount + fineCalc.fine)
        else (s, shareAmount)
      else (s, shareAmount)
    let s1 := fineStep.1
    let s2 := s1.putUser { user with totalDeposited := user.totalDeposited + shareAmount }
    let s3 := s2.appendEntry (fun n =>
      { id := n, user := some userId, txType := .deposit, category := "monthly_deposit"
        amount := shareAmount, bankAccount := some motherId, referenceId := none
        transferFrom := none, transferTo := none })
    (s3, acc.2 + fineStep.2)

/-- Translation of `processDeposit` of `src/controllers/memberController.js`
(lines 322-512): require a mother account, process every member of the
batch, and finally credit the mother account with the single aggregated
`totalBatchAmount`. -/
def processDeposit (s : State) (userIds : List Nat) (finePayers : List Nat)
    (today : Nat) : OpResult :=
  match s.accounts.find? (fun a => a.isMotherAccount) with
  | none => (s, some .noMotherAccount)
  | some motherAccount =>
    let settings := s.fineSettings.getD { gracePeriodMonths := 2, finePercentage := 5 }
    let r := userIds.foldl (processMember s motherAccount.id settings finePayers today) (s, 0)
    (r.1.putAccount { motherAccount with
      currentBalance := motherAccount.currentBalance + r.2 }, none)

/-- Step 1 of `deleteTransaction` (financeController lines 1464-1477):
reverse the bank balance, but only for `deposit` and `expense` entries. -/
def reverseBank (s : State) (transaction : Entry) : State :=
  match transaction.bankAccount with
  | none => s
  | some bId =>
    match s.findAccount bId with
    | none => s
    | some bank =>
      if transaction.txType = TxType.deposit then
        s.putAccount { bank with currentBalance := bank.currentBalance - transaction.amount }
      else if transaction.txType = TxType.expense then
        s.putAccount { bank with currentBalance := bank.currentBalance + transaction.amount }
      else s

/-- Step 2 of `deleteTransaction` (financeController lines 1479-1487):
reverse the member's `totalDeposited` for `monthly_deposit` entries. -/
def reverseMemberDeposit (s : State) (transaction : Entry) : State :=
  match transaction.user with
  | none => s
  | some uId =>
    if transaction.category = "monthly_deposit" then
      match s.findUser uId with
      | none => s
      | some user =>
        s.putUser { user with totalDeposited := user.totalDeposited - transaction.amount }
    else s

/-- Step 3 of `deleteTransaction` (financeController lines 1489-1505):
reverse the investment's `totalProfit` when the entry carries an investment
reference and its category contains the string "investment". -/
def reverseInvestmentProfit (s : State) (transaction : Entry) : State :=
  match transaction.referenceId with
  | none => s
  | some refId =>
    if strIncludes transaction.category "investment" then
      match s.findInvestment refId with
      | none => s
      | some project =>
        if transaction.txType = TxType.deposit then
          s.putInvestment { project with totalProfit := project.totalProfit - transaction.amount }
        else
          s.putInvestment { project with totalProfit := project.totalProfit + transaction.amount }
    else s

/-- Translation of `deleteTransaction` of `src/controllers/financeController.js`
(lines 1450-1528): apply the three reversal steps, then remove the entry. -/
def deleteTransaction (s : State) (txId : Nat) : OpResult :=
  match fid Entry.id s.ledger txId with
  | none => (s, some .notFound)
  | some transaction =>
    let s3 := reverseInvestmentProfit
      (reverseMemberDeposit (reverseBank s transaction) transaction) transaction
    ({ s3 with ledger := rem Entry.id s3.ledger txId }, none)

/-- Translation of `addBankAccount` of `src/controllers/bankAccountController.js`
(lines 8-26): when the new account claims the mother flag, clear it on every
account first, then create the account. -/
def addBankAccount (s : State) (isMotherAccount : Bool) (initialBalance : ℚ) : OpResult :=
  let s1 := if isMotherAccount then
      { s with accounts := s.accounts.map (fun a => { a with isMotherAccount := false }) }
    else s
  let newAccount : Account :=
    { id := s1.nextId, currentBalance := initialBalance, isMotherAccount := isMotherAccount }
  ({ s1 with
    accounts := s1.accounts ++ [newAccount],
    nextId := s1.nextId + 1 }, none)

/-- Translation of `updateBankAccount` of `src/controllers/bankAccountController.js`
(lines 128-149): when the request body sets the mother flag, clear it on all
accounts first (this write is not transactional, so it survives even when
the target id is missing); then `$set` the body on the target account. -/
def updateBankAccount (s : State) (accId : Nat) (isMotherBody : Option Bool) : OpResult :=
  let s1 := if isMotherBody.getD false then
      { s with accounts := s.accounts.map (fun a => { a with isMotherAccount := false }) }
    else s
  match s1.findAccount accId with
  | none => (s1, some .notFound)
  | some acc =>
    (s1.putAccount { acc with isMotherAccount := isMotherBody.getD acc.isMotherAccount }, none)

/-- Translation of `deleteBankAccount` of `src/controllers/bankAccountController.js`
(lines 154-176): refuse to delete an account whose balance is positive;
otherwise remove it. -/
def deleteBankAccount (s : State) (accId : Nat) : OpResult :=
  match s.findAccount accId with
  | none => (s, some .notFound)
  | some account =>
    if 0 < account.currentBalance then (s, some .balanceNotZero)
    else ({ s with accounts := rem Account.id s.accounts accId }, none)

/-- Signed contribution of one ledger entry to the balance of account `a`:
deposits (including profit credits and liquidations) count positive,
expenses and investment-capital debits negative, and a transfer entry counts
negatively for its source and positively for its destination. -/
def signedAmount (e : Entry) (a : Nat) : ℚ :=
  match e.txType with
  | .deposit => if e.bankAccount = some a then e.amount else 0
  | .expense => if e.bankAccount = some a then -e.amount else 0
  | .investment => if e.bankAccount = some a then -e.amount else 0
  | .transfer =>
    (if e.transferTo = some a then e.amount else 0) +
      (if e.transferFrom = some a then -e.amount else 0)
  | .adjustment => 0

/-- Signed sum of all ledger entries referencing account `a`. -/
def signedSum (l : List Entry) (a : Nat) : ℚ :=
  l.foldr (fun e acc => signedAmount e a + acc) 0

/-- The balance invariant of the specification: every treasury account's
cached balance equals the signed sum of the ledger entries referencing it. -/
def BalInv (s : State) : Prop :=
  ∀ a ∈ s.accounts, a.currentBalance = signedSum s.ledger a.id

/-- Account ids are pairwise distinct (Mongo `_id` uniqueness). -/
def AccIdsNodup (s : State) : Prop :=
  (s.accounts.map Account.id).Nodup

/-- The committed engine operations named by the balance-invariant claim. -/
inductive EngineOp
  | depositBatch (userIds finePayers : List Nat) (today : Nat)
  | expense (amount : ℚ) (bankId : Nat) (category : String)
  | fund (amount : ℚ) (bankId : Nat) (adminId : Nat)
  | outcome (invId : Nat) (amount : ℚ) (isExpense : Bool) (bankId : Nat)
  | liquidate (invId : Nat) (closingValue : Option ℚ) (bankOverride : Option Nat) (adminId : Nat)
  | transfer (fromId toId : Nat) (amount : ℚ)
  | collectFine (userId : Nat) (amount : ℚ) (bankId : Nat)
  | reversal (txId : Nat)

/-- Apply one engine operation (an aborted call leaves the state as it was,
so the post-state component covers both outcomes). -/
def applyOp (s : State) : EngineOp → State
  | .depositBatch userIds finePayers today => (processDeposit s userIds finePayers today).1
  | .expense amount bankId category => (addExpense s amount bankId category).1
  | .fund amount bankId adminId => (addInvestment s amount bankId adminId).1
  | .outcome invId amount isExpense bankId =>
    (recordInvestmentProfit s invId amount isExpense bankId).1
  | .liquidate invId closingValue bankOverride adminId =>
    (deleteInvestment s invId closingValue bankOverride adminId).1
  | .transfer fromId toId amount => (transferBalance s fromId toId amount).1
  | .collectFine userId amount bankId => (collectPaidFine s userId amount bankId).1
  | .reversal txId => (deleteTransaction s txId).1

/-- Side conditions under which the balance invariant survives an operation:
transfers must move between two distinct accounts, and a reversal must
target a `deposit` or `expense` entry (the only kinds `deleteTransaction`
actually reverses). -/
def opOK (s : State) : EngineOp → Prop
  | .transfer fromId toId _ => fromId ≠ toId
  | .reversal txId =>
    ∀ tx, fid Entry.id s.ledger txId = some tx →
      tx.txType = .deposit ∨ tx.txType = .expense
  | _ => True

/-- Pointwise side conditions along a whole operation sequence. -/
def seqOK (s : State) : List EngineOp → Prop
  | [] => True
  | op :: ops => opOK s op ∧ seqOK (applyOp s op) ops

/-- Round-trip target: all four collections are back to their pre-operation
contents (in particular every balance, `totalDeposited` and `totalProfit`). -/
def Restores (s t : State) : Prop :=
  t.accounts = s.accounts ∧ t.users = s.users ∧
    t.investments = s.investments ∧ t.ledger = s.ledger

/-- Well-formedness: every stored ledger entry has an `_id` below the next
fresh id (true of every state Mongo can produce). -/
def LedgerFresh (s : State) : Prop :=
  ∀ e ∈ s.ledger, e.id < s.nextId

/-- Number of accounts currently carrying the mother/primary flag. -/
def countMother (l : List Account) : Nat :=
  (l.filter (fun a => a.isMotherAccount)).length

/-- The bank-account management calls of `bankAccountController.js`:
create (`addBankAccount`, with the requested flag value), update
(`updateBankAccount`, with the optional `isMotherAccount` field of the
request body) and remove (`deleteBankAccount`). -/
inductive BankOp
  | create (isMotherAccount : Bool) (initialBalance : ℚ)
  | update (accId : Nat) (isMotherBody : Option Bool)
  | remove (accId : Nat)

/-- State reached by one committed bank-account management call (an aborted
call leaves the returned state, which for these controllers is the state
after any non-transactional writes). -/
def applyBankOp (s : State) : BankOp → State
  | .create flag bal => (addBankAccount s flag bal).1
  | .update accId body => (updateBankAccount s accId body).1
  | .remove accId => (deleteBankAccount s accId).1

/-- A share entry is well-priced relative to the pre-batch state `s0`: a
`monthly_deposit` entry recorded for a member present in `s0` carries the
fixed unit amount (shares || 1) × 1000. -/
def ShareEntryOK (s0 : State) (e : Entry) : Prop :=
  e.category = "monthly_deposit" → ∀ uid u, e.user = some uid →
    s0.findUser uid = some u → e.amount = (jsOr u.shares 1 : ℚ) * 1000

theorem fineIter_spec (rate : ℚ) (grace today : Nat) :
    ∀ n check gross cnt, today - check = n →
      fineIter rate grace today check gross cnt =
        (gross + Finset.sum ((Finset.Ico check today).filter
            (fun c => grace < today - c - 1))
            (fun c => ((today - c - 1 : Nat) : ℚ) * rate),
         cnt + ((Finset.Ico check today).filter
            (fun c => grace < today - c - 1)).card) := by
  intro n
  induction n with
  | zero =>
    intro check gross cnt h
    have hge : today ≤ check := by omega
    rw [fineIter, if_neg (by omega), Finset.Ico_eq_empty (by omega)]
    simp
  | succ k ih =>
    intro check gross cnt h
    have hlt : check < today := by omega
    have hins : Finset.Ico check today = insert check (Finset.Ico (check + 1) today) := by
      rw [Nat.Ico_insert_succ_left hlt]
    have hnm : check ∉ (Finset.Ico (check + 1) today).filter
        (fun c => grace < today - c - 1) := by
      simp [Finset.mem_Ico]
    rw [fineIter, if_pos hlt]
    by_cases hg : grace < today - check - 1
    · rw [if_pos hg, ih (check + 1) _ _ (by omega),
        hins, Finset.filter_insert, if_pos hg,
        Finset.sum_insert hnm, Finset.card_insert_of_not_mem hnm]
      simp only [Prod.mk.injEq]
      constructor
      · ring
      · omega
    · rw [if_neg hg, ih (check + 1) _ _ (by omega),
        hins, Finset.filter_insert, if_neg hg]

/-- Helper: the loop-based member calculator agrees with the closed-form
specification on every input. -/
theorem calcMember_eq_claimSpec (m : Member) (s : FineSettings) (red : ℚ) (today : Nat) :
    calculateFineLogicMember m s red today = claimFineSpec m s red today := by
  simp only [calculateFineLogicMember, claimFineSpec,
    fineIter_spec _ _ _ (today - (m.joinMonth + 1)) _ _ _ rfl]
  simp [grossFineSpec, overdueMonthsSpec]

theorem calcMember_within_grace (m : Member) (s : FineSettings) (red : ℚ) (today : Nat)
    (hg : today ≤ m.joinMonth + s.gracePeriodMonths) (hred : 0 ≤ red) :
    calculateFineLogicMember m s red today =
      { fine := 0, months := 0, totalReduced := red } := by
  rw [calcMember_eq_claimSpec]
  have hempty : overdueMonthsSpec s.gracePeriodMonths today m.joinMonth = ∅ := by
    apply Finset.filter_eq_empty_iff.mpr
    intro c hc
    rw [Finset.mem_Ico] at hc
    omega
  simp only [claimFineSpec, grossFineSpec, hempty, Finset.sum_empty, Finset.card_empty]
  have h0 : jsRound 0 = 0 := by norm_num [jsRound]
  rw [h0]
  simp only [Int.cast_zero, zero_sub]
  rw [max_eq_left (by linarith)]

theorem calcMember_fine_of_no_overdue (m : Member) (s : FineSettings) (red : ℚ)
    (today : Nat) (hred : 0 ≤ red)
    (hm : (calculateFineLogicMember m s red today).months = 0) :
    (calculateFineLogicMember m s red today).fine = 0 := by
  rw [calcMember_eq_claimSpec] at hm ⊢
  simp only [claimFineSpec] at hm ⊢
  have hempty : overdueMonthsSpec s.gracePeriodMonths today m.joinMonth = ∅ :=
    Finset.card_eq_zero.mp hm
  simp only [grossFineSpec, hempty, Finset.sum_empty]
  have h0 : jsRound 0 = 0 := by norm_num [jsRound]
  rw [h0]
  simp only [Int.cast_zero, zero_sub]
  rw [max_eq_left (by linarith)]

/-- C2: the Accrual Calculator (`memberController.calculateFineLogic`)
computes `grossFine` as the sum, over the completed months after the
member's joining month and before the current month, of
`monthsAgoFinished × monthlyFineRate` for exactly those months whose
`monthsAgoFinished` strictly exceeds the grace period, counts those months
as `overdueMonths`, and returns `netFine = max(0, round(grossFine) −
totalReductions)`. -/
theorem accrual_calculator_matches_spec (m : Member) (s : FineSettings)
    (totalReduced : ℚ) (today : Nat) :
    calculateFineLogicMember m s totalReduced today =
      claimFineSpec m s totalReduced today :=
  calcMember_eq_claimSpec m s totalReduced today

/-- C3 (counterexample): the two embedded fine calculators are not
extensionally equal — for a member who joined at month 0, observed at month
5 under `grace = 1, fine = 5%`, `shares = 1`, `rate = 1000`, and no
reductions, the member-controller calculator returns `netFine = 250,
overdueMonths = 2` while the finance-controller calculator returns
`netFine = 200, overdueMonths = 4`. -/
theorem fine_calculators_disagree :
    (calculateFineLogicMember ⟨1, 1, 1000, 0, 0⟩ ⟨1, 5⟩ 0 5).fine ≠
      (calculateFineLogicFinance ⟨1, 1, 1000, 0, 0⟩ ⟨1, 5⟩ 0 5).fine ∧
    ((calculateFineLogicMember ⟨1, 1, 1000, 0, 0⟩ ⟨1, 5⟩ 0 5).months : ℤ) ≠
      (calculateFineLogicFinance ⟨1, 1, 1000, 0, 0⟩ ⟨1, 5⟩ 0 5).months := by
  have hm : calculateFineLogicMember ⟨1, 1, 1000, 0, 0⟩ ⟨1, 5⟩ 0 5
      = { fine := 250, months := 2, totalReduced := 0 } := by
    have h : fineIter 50 1 5 1 0 0 = (250, 2) := by
      rw [fineIter]; norm_num
      rw [fineIter]; norm_num
      rw [fineIter]; norm_num
      rw [fineIter]; norm_num
      rw [fineIter]; norm_num
    simp only [calculateFineLogicMember, monthlyInstallment, jsOr]
    norm_num [h, jsRound]
  have hf : calculateFineLogicFinance ⟨1, 1, 1000, 0, 0⟩ ⟨1, 5⟩ 0 5
      = { fine := 200, months := 4, dueAmount := 4000, totalReduced := 0 } := by
    simp only [calculateFineLogicFinance, monthlyInstallment, jsOr]
    norm_num [jsRound]
  rw [hm, hf]
  norm_num

/-- C3 (amended): the dashboard/defaulter-list calculator
(`financeController.calculateFineLogic`) and the deposit-batch calculator
(`memberController.calculateFineLogic`) are distinct functions that
disagree in general; they are guaranteed to agree — both returning
`netFine = 0` and `overdueMonths = 0` — only while the months elapsed since
joining do not exceed the grace period (given non-negative reductions). -/
theorem fine_calculators_agree_within_grace (m : Member) (s : FineSettings)
    (red : ℚ) (today : Nat) (hred : 0 ≤ red)
    (hg : (today : ℤ) - (m.joinMonth : ℤ) ≤ (s.gracePeriodMonths : ℤ)) :
    (calculateFineLogicMember m s red today).fine =
        (calculateFineLogicFinance m s red today).fine ∧
    ((calculateFineLogicMember m s red today).months : ℤ) =
        (calculateFineLogicFinance m s red today).months ∧
    (calculateFineLogicMember m s red today).fine = 0 := by
  have hgn : today ≤ m.joinMonth + s.gracePeriodMonths := by omega
  have hmem := calcMember_within_grace m s red today hgn hred
  have hfin : calculateFineLogicFinance m s red today =
      { fine := 0, months := 0, dueAmount := 0, totalReduced := 0 } := by
    simp only [calculateFineLogicFinance, if_neg (not_lt.mpr (by omega : (today : ℤ) - (m.joinMonth : ℤ) ≤ (s.gracePeriodMonths : ℤ)))]
  rw [hmem, hfin]
  norm_num

/-- C3 witness: the agreement theorem applied to a member one month after
joining under a two-month grace period. -/
theorem fine_calculators_agree_within_grace_witness :
    (calculateFineLogicMember ⟨7, 1, 1000, 10, 0⟩ ⟨2, 5⟩ 3 11).fine =
        (calculateFineLogicFinance ⟨7, 1, 1000, 10, 0⟩ ⟨2, 5⟩ 3 11).fine ∧
    ((calculateFineLogicMember ⟨7, 1, 1000, 10, 0⟩ ⟨2, 5⟩ 3 11).months : ℤ) =
        (calculateFineLogicFinance ⟨7, 1, 1000, 10, 0⟩ ⟨2, 5⟩ 3 11).months ∧
    (calculateFineLogicMember ⟨7, 1, 1000, 10, 0⟩ ⟨2, 5⟩ 3 11).fine = 0 :=
  fine_calculators_agree_within_grace ⟨7, 1, 1000, 10, 0⟩ ⟨2, 5⟩ 3 11
    (by norm_num) (by norm_num)

/-- C9 (counterexample): a member with `overdueMonths ≤ gracePeriodMonths`
can still owe a fine — joined at month 0, observed at month 5 under
`grace = 2, fine = 5%`, the calculator returns `overdueMonths = 1 ≤ 2` but
`netFine = 150 ≠ 0`. -/
theorem grace_overdue_months_nonzero_fine :
    (calculateFineLogicMember ⟨1, 1, 1000, 0, 0⟩ ⟨2, 5⟩ 0 5).months ≤
        (⟨2, 5⟩ : FineSettings).gracePeriodMonths ∧
    (calculateFineLogicMember ⟨1, 1, 1000, 0, 0⟩ ⟨2, 5⟩ 0 5).fine ≠ 0 := by
  have hm : calculateFineLogicMember ⟨1, 1, 1000, 0, 0⟩ ⟨2, 5⟩ 0 5
      = { fine := 150, months := 1, totalReduced := 0 } := by
    have h : fineIter 50 2 5 1 0 0 = (150, 1) := by
      rw [fineIter]; norm_num
      rw [fineIter]; norm_num
      rw [fineIter]; norm_num
      rw [fineIter]; norm_num
      rw [fineIter]; norm_num
    simp only [calculateFineLogicMember, monthlyInstallment, jsOr]
    norm_num [h, jsRound]
  rw [hm]
  norm_num

/-- C9 (amended): a member for whom the calculator reports zero overdue
months (no completed month beyond the grace period) owes nothing, for any
non-negative total of reductions. -/
theorem zero_overdue_months_zero_fine (m : Member) (s : FineSettings)
    (red : ℚ) (today : Nat) (hred : 0 ≤ red)
    (hm : (calculateFineLogicMember m s red today).months = 0) :
    (calculateFineLogicMember m s red today).fine = 0 :=
  calcMember_fine_of_no_overdue m s red today hred hm

/-- C9 witness: the amended theorem applied to a freshly joined member. -/
theorem zero_overdue_months_zero_fine_witness :
    (calculateFineLogicMember ⟨3, 2, 1000, 6, 0⟩ ⟨1, 5⟩ 0 7).fine = 0 := by
  refine zero_overdue_months_zero_fine ⟨3, 2, 1000, 6, 0⟩ ⟨1, 5⟩ 0 7 (by norm_num) ?_
  have h : fineIter 100 1 7 7 0 0 = (0, 0) := by
    rw [fineIter]; norm_num
  simp only [calculateFineLogicMember, monthlyInstallment, jsOr]
  norm_num [h]

theorem fid_cons {α : Type} (key : α → Nat) (x : α) (xs : List α) (i : Nat) :
    fid key (x :: xs) i = if key x = i then some x else fid key xs i := rfl

theorem fid_mem {α : Type} {key : α → Nat} {l : List α} {i : Nat} {a : α}
    (h : fid key l i = some a) : a ∈ l ∧ key a = i := by
  induction l with
  | nil => simp [fid] at h
  | cons x xs ih =>
    rw [fid_cons] at h
    by_cases hx : key x = i
    · rw [if_pos hx] at h
      obtain rfl := Option.some_injective _ h
      exact ⟨List.mem_cons_self _ _, hx⟩
    · rw [if_neg hx] at h
      obtain ⟨hm, hk⟩ := ih h
      exact ⟨List.mem_cons_of_mem _ hm, hk⟩

theorem fid_none {α : Type} {key : α → Nat} {l : List α} {i : Nat}
    (h : fid key l i = none) : ∀ a ∈ l, key a ≠ i := by
  induction l with
  | nil => simp
  | cons x xs ih =>
    rw [fid_cons] at h
    by_cases hx : key x = i
    · rw [if_pos hx] at h
      simp at h
    · rw [if_neg hx] at h
      intro a ha
      rcases List.mem_cons.mp ha with rfl | hm
      · exact hx
      · exact ih h a hm

theorem map_key_put {α : Type} (key : α → Nat) (l : List α) (a : α) :
    (put key l a).map key = l.map key := by
  induction l with
  | nil => rfl
  | cons x xs ih =>
    by_cases h : key x = key a
    · simp [put, h]
    · simp [put, h, ih]

theorem mem_put {α : Type} {key : α → Nat} {l : List α} {a x : α}
    (hnd : (l.map key).Nodup) (hx : x ∈ put key l a) :
    x = a ∨ (x ∈ l ∧ key x ≠ key a) := by
  induction l with
  | nil => simp [put] at hx
  | cons y ys ih =>
    simp only [List.map_cons, List.nodup_cons] at hnd
    by_cases h : key y = key a
    · simp only [put, h, if_true] at hx
      rcases List.mem_cons.mp hx with rfl | hmem
      · exact Or.inl rfl
      · refine Or.inr ⟨List.mem_cons_of_mem _ hmem, ?_⟩
        intro hk
        exact hnd.1 (by rw [h, ← hk]; exact List.mem_map_of_mem key hmem)
    · simp only [put, h, if_false] at hx
      rcases List.mem_cons.mp hx with rfl | hmem
      · exact Or.inr ⟨List.mem_cons_self _ _, h⟩
      · rcases ih hnd.2 hmem with rfl | ⟨hmm, hk⟩
        · exact Or.inl rfl
        · exact Or.inr ⟨List.mem_cons_of_mem _ hmm, hk⟩

theorem fid_put_ne {α : Type} {key : α → Nat} (l : List α) (a : α) {i : Nat}
    (h : i ≠ key a) : fid key (put key l a) i = fid key l i := by
  induction l with
  | nil => rfl
  | cons x xs ih =>
    by_cases hx : key x = key a
    · simp only [put, hx, if_true]
      rw [fid_cons, fid_cons]
      have h1 : ¬ key a = i := fun hh => h hh.symm
      rw [if_neg h1, if_neg (by rw [hx]; exact h1)]
    · simp only [put, hx, if_false]
      rw [fid_cons, fid_cons, ih]

theorem fid_put_self {α : Type} {key : α → Nat} {l : List α} {a0 : α} (a : α)
    (h : fid key l (key a) = some a0) : fid key (put key l a) (key a) = some a := by
  induction l with
  | nil => simp [fid] at h
  | cons x xs ih =>
    by_cases hx : key x = key a
    · simp only [put, hx, if_true]
      rw [fid_cons, if_pos rfl]
    · simp only [put, hx, if_false]
      rw [fid_cons] at h ⊢
      rw [if_neg hx] at h ⊢
      exact ih h

theorem put_self {α : Type} {key : α → Nat} {l : List α} {a : α}
    (h : fid key l (key a) = some a) : put key l a = l := by
  induction l with
  | nil => simp [fid] at h
  | cons x xs ih =>
    rw [fid_cons] at h
    by_cases hx : key x = key a
    · rw [if_pos hx] at h
      obtain rfl := Option.some_injective _ h
      simp [put]
    · rw [if_neg hx] at h
      simp [put, hx, ih h]

theorem put_put {α : Type} (key : α → Nat) (l : List α) (a b : α)
    (h : key a = key b) : put key (put key l a) b = put key l b := by
  induction l with
  | nil => rfl
  | cons x xs ih =>
    by_cases hx : key x = key a
    · simp [put, hx, h, hx.trans h]
    · have hxb : ¬ key x = key b := fun hh => hx (hh.trans h.symm)
      simp [put, hx, hxb, ih]

theorem rem_of_fid_none {α : Type} {key : α → Nat} {l : List α} {i : Nat}
    (h : fid key l i = none) : rem key l i = l := by
  induction l with
  | nil => rfl
  | cons x xs ih =>
    rw [fid_cons] at h
    by_cases hx : key x = i
    · rw [if_pos hx] at h
      simp at h
    · rw [if_neg hx] at h
      simp [rem, hx, ih h]

theorem signedSum_nil (a : Nat) : signedSum [] a = 0 := rfl

theorem signedSum_cons (e : Entry) (l : List Entry) (a : Nat) :
    signedSum (e :: l) a = signedAmount e a + signedSum l a := rfl

theorem signedSum_append (l1 l2 : List Entry) (a : Nat) :
    signedSum (l1 ++ l2) a = signedSum l1 a + signedSum l2 a := by
  induction l1 with
  | nil => simp [signedSum_nil]
  | cons e es ih =>
    rw [List.cons_append, signedSum_cons, signedSum_cons, ih]
    ring

theorem signedSum_rem {l : List Entry} {tx : Entry} {i : Nat}
    (h : fid Entry.id l i = some tx) (a : Nat) :
    signedSum (rem Entry.id l i) a = signedSum l a - signedAmount tx a := by
  induction l with
  | nil => simp [fid] at h
  | cons x xs ih =>
    rw [fid_cons] at h
    by_cases hp : x.id = i
    · rw [if_pos hp] at h
      obtain rfl := Option.some_injective _ h
      simp only [rem, hp, if_true, signedSum_cons]
      ring
    · rw [if_neg hp] at h
      simp only [rem, hp, if_false, signedSum_cons, ih h]
      ring

theorem balInv_put1 {accounts : List Account} {oldLedger newLedger : List Entry}
    {acc : Account} {d : ℚ}
    (hnd : (accounts.map Account.id).Nodup)
    (hinv : ∀ a ∈ accounts, a.currentBalance = signedSum oldLedger a.id)
    (hfind : fid Account.id accounts acc.id = some acc)
    (hdelta : ∀ b : Nat, signedSum newLedger b =
      signedSum oldLedger b + (if b = acc.id then d else 0)) :
    ∀ a ∈ put Account.id accounts { acc with currentBalance := acc.currentBalance + d },
      a.currentBalance = signedSum newLedger a.id := by
  intro x hx
  rcases mem_put hnd hx with rfl | ⟨hxl, hne⟩
  · rw [hdelta, if_pos rfl, ← hinv acc (fid_mem hfind).1]
  · rw [hdelta, if_neg hne, hinv x hxl]
    ring

theorem balInv_put2 {accounts : List Account} {oldLedger newLedger : List Entry}
    {acc1 acc2 : Account} {d1 d2 : ℚ}
    (hnd : (accounts.map Account.id).Nodup)
    (hinv : ∀ a ∈ accounts, a.currentBalance = signedSum oldLedger a.id)
    (hfind1 : fid Account.id accounts acc1.id = some acc1)
    (hfind2 : fid Account.id accounts acc2.id = some acc2)
    (hne : acc1.id ≠ acc2.id)
    (hdelta : ∀ b : Nat, signedSum newLedger b = signedSum oldLedger b
      + (if b = acc1.id then d1 else 0) + (if b = acc2.id then d2 else 0)) :
    ∀ a ∈ put Account.id
        (put Account.id accounts { acc1 with currentBalance := acc1.currentBalance + d1 })
        { acc2 with currentBalance := acc2.currentBalance + d2 },
      a.currentBalance = signedSum newLedger a.id := by
  intro x hx
  have hnd1 : ((put Account.id accounts
      { acc1 with currentBalance := acc1.currentBalance + d1 }).map Account.id).Nodup := by
    rw [map_key_put]
    exact hnd
  rcases mem_put hnd1 hx with rfl | ⟨hx1, hne2⟩
  · rw [hdelta, if_neg (by simpa using (Ne.symm hne)), if_pos rfl,
      ← hinv acc2 (fid_mem hfind2).1]
    ring
  · rcases mem_put hnd hx1 with rfl | ⟨hx0, hne1⟩
    · rw [hdelta, if_pos rfl, if_neg (by simpa using hne), ← hinv acc1 (fid_mem hfind1).1]
      ring
    · rw [hdelta, if_neg hne1, if_neg hne2, hinv x hx0]
      ring

@[simp] theorem appendEntry_accounts (s : State) (e : Nat → Entry) :
    (s.appendEntry e).accounts = s.accounts := rfl

@[simp] theorem appendEntry_users (s : State) (e : Nat → Entry) :
    (s.appendEntry e).users = s.users := rfl

@[simp] theorem appendEntry_investments (s : State) (e : Nat → Entry) :
    (s.appendEntry e).investments = s.investments := rfl

@[simp] theorem appendEntry_ledger (s : State) (e : Nat → Entry) :
    (s.appendEntry e).ledger = s.ledger ++ [e s.nextId] := rfl

@[simp] theorem putUser_accounts (s : State) (u : Member) :
    (s.putUser u).accounts = s.accounts := rfl

@[simp] theorem putUser_ledger (s : State) (u : Member) :
    (s.putUser u).ledger = s.ledger := rfl

@[simp] theorem putUser_investments (s : State) (u : Member) :
    (s.putUser u).investments = s.investments := rfl

@[simp] theorem putUser_users (s : State) (u : Member) :
    (s.putUser u).users = put Member.id s.users u := rfl

@[simp] theorem putAccount_accounts (s : State) (a : Account) :
    (s.putAccount a).accounts = put Account.id s.accounts a := rfl

@[simp] theorem putAccount_ledger (s : State) (a : Account) :
    (s.putAccount a).ledger = s.ledger := rfl

@[simp] theorem putAccount_users (s : State) (a : Account) :
    (s.putAccount a).users = s.users := rfl

@[simp] theorem putAccount_investments (s : State) (a : Account) :
    (s.putAccount a).investments = s.investments := rfl

@[simp] theorem putInvestment_accounts (s : State) (v : Investment) :
    (s.putInvestment v).accounts = s.accounts := rfl

@[simp] theorem putInvestment_ledger (s : State) (v : Investment) :
    (s.putInvestment v).ledger = s.ledger := rfl

@[simp] theorem putInvestment_users (s : State) (v : Investment) :
    (s.putInvestment v).users = s.users := rfl

@[simp] theorem putInvestment_investments (s : State) (v : Investment) :
    (s.putInvestment v).investments = put Investment.id s.investments v := rfl

@[simp] theorem findAccount_putInvestment (s : State) (v : Investment) (i : Nat) :
    (s.putInvestment v).findAccount i = s.findAccount i := rfl

@[simp] theorem findUser_appendEntry (s : State) (e : Nat → Entry) (i : Nat) :
    (s.appendEntry e).findUser i = s.findUser i := rfl

theorem step_expense (s : State) (amount : ℚ) (bankId : Nat) (cat : String)
    (hnd : AccIdsNodup s) (hinv : BalInv s) :
    AccIdsNodup (addExpense s amount bankId cat).1 ∧
      BalInv (addExpense s amount bankId cat).1 := by
  cases hb : s.findAccount bankId with
  | none => simp only [addExpense, hb]; exact ⟨hnd, hinv⟩
  | some bank =>
    obtain ⟨hmem, hkey⟩ := fid_mem hb
    simp only [addExpense, hb]
    constructor
    · unfold AccIdsNodup at hnd ⊢
      simp only [putAccount_accounts, appendEntry_accounts, map_key_put]
      exact hnd
    · intro a ha
      simp only [putAccount_accounts, appendEntry_accounts] at ha
      simp only [putAccount_ledger, appendEntry_ledger]
      have heq : ({ bank with currentBalance := bank.currentBalance - amount } : Account)
          = { bank with currentBalance := bank.currentBalance + (-amount) } := by
        rw [sub_eq_add_neg]
      rw [heq] at ha
      refine balInv_put1 hnd hinv (by rw [hkey]; exact hb) ?_ a ha
      intro b
      rw [signedSum_append]
      by_cases hba : b = bank.id
      · subst hba
        simp [signedSum, signedAmount, hkey]
      · have hne2 : bankId ≠ b := fun hh => hba (by omega)
        simp [signedSum, signedAmount, hba, hne2]

theorem step_collectFine (s : State) (userId : Nat) (amount : ℚ) (bankId : Nat)
    (hnd : AccIdsNodup s) (hinv : BalInv s) :
    AccIdsNodup (collectPaidFine s userId amount bankId).1 ∧
      BalInv (collectPaidFine s userId amount bankId).1 := by
  cases hb : s.findAccount bankId with
  | none => simp only [collectPaidFine, hb]; exact ⟨hnd, hinv⟩
  | some bank =>
    obtain ⟨hmem, hkey⟩ := fid_mem hb
    simp only [collectPaidFine, hb]
    constructor
    · unfold AccIdsNodup at hnd ⊢
      simp only [putAccount_accounts, appendEntry_accounts, map_key_put]
      exact hnd
    · intro a ha
      simp only [putAccount_accounts, appendEntry_accounts] at ha
      simp only [putAccount_ledger, appendEntry_ledger]
      refine balInv_put1 hnd hinv (by rw [hkey]; exact hb) ?_ a ha
      intro b
      rw [signedSum_append]
      by_cases hba : b = bank.id
      · subst hba
        simp [signedSum, signedAmount, hkey]
      · have hne2 : bankId ≠ b := fun hh => hba (by omega)
        simp [signedSum, signedAmount, hba, hne2]

theorem step_fund (s : State) (amount : ℚ) (bankId : Nat) (adminId : Nat)
    (hnd : AccIdsNodup s) (hinv : BalInv s) :
    AccIdsNodup (addInvestment s amount bankId adminId).1 ∧
      BalInv (addInvestment s amount bankId adminId).1 := by
  cases hb : s.findAccount bankId with
  | none => simp only [addInvestment, hb]; exact ⟨hnd, hinv⟩
  | some bank =>
    obtain ⟨hmem, hkey⟩ := fid_mem hb
    simp only [addInvestment, hb]
    by_cases hlt : bank.currentBalance < amount
    · rw [if_pos hlt]
      exact ⟨hnd, hinv⟩
    · rw [if_neg hlt]
      constructor
      · unfold AccIdsNodup at hnd ⊢
        simp only [putAccount_accounts, appendEntry_accounts, map_key_put]
        exact hnd
      · intro a ha
        simp only [putAccount_accounts, appendEntry_accounts] at ha
        simp only [putAccount_ledger, appendEntry_ledger]
        have heq : ({ bank with currentBalance := bank.currentBalance - amount } : Account)
            = { bank with currentBalance := bank.currentBalance + (-amount) } := by
          rw [sub_eq_add_neg]
        rw [heq] at ha
        refine balInv_put1 hnd hinv (by rw [hkey]; exact hb) ?_ a ha
        intro b
        rw [signedSum_append]
        by_cases hba : b = bank.id
        · subst hba
          simp [signedSum, signedAmount, hkey]
        · have hne2 : bankId ≠ b := fun hh => hba (by omega)
          simp [signedSum, signedAmount, hba, hne2]

theorem step_outcome (s : State) (invId : Nat) (amount : ℚ) (isExpense : Bool)
    (bankId : Nat) (hnd : AccIdsNodup s) (hinv : BalInv s) :
    AccIdsNodup (recordInvestmentProfit s invId amount isExpense bankId).1 ∧
      BalInv (recordInvestmentProfit s invId amount isExpense bankId).1 := by
  cases hv : s.findInvestment invId with
  | none => simp only [recordInvestmentProfit, hv]; exact ⟨hnd, hinv⟩
  | some investment =>
    cases hb : s.findAccount bankId with
    | none => simp only [recordInvestmentProfit, hv, hb]; exact ⟨hnd, hinv⟩
    | some bank =>
      obtain ⟨hmem, hkey⟩ := fid_mem hb
      simp only [recordInvestmentProfit, hv, hb]
      cases isExpense with
      | true =>
        simp only [if_true, Bool.true_eq_false, if_false]
        constructor
        · unfold AccIdsNodup at hnd ⊢
          simp only [putAccount_accounts, putInvestment_accounts,
            appendEntry_accounts, map_key_put]
          exact hnd
        · intro a ha
          simp only [putAccount_accounts, putInvestment_accounts, appendEntry_accounts] at ha
          simp only [putAccount_ledger, putInvestment_ledger, appendEntry_ledger]
          have heq : ({ bank with currentBalance := bank.currentBalance - amount } : Account)
              = { bank with currentBalance := bank.currentBalance + (-amount) } := by
            rw [sub_eq_add_neg]
          rw [heq] at ha
          refine balInv_put1 hnd hinv (by rw [hkey]; exact hb) ?_ a ha
          intro b
          rw [signedSum_append]
          by_cases hba : b = bank.id
          · subst hba
            simp [signedSum, signedAmount, hkey]
          · have hne2 : bankId ≠ b := fun hh => hba (by omega)
            simp [signedSum, signedAmount, hba, hne2]
      | false =>
        simp only [Bool.false_eq_true, if_false, if_true]
        constructor
        · unfold AccIdsNodup at hnd ⊢
          simp only [putAccount_accounts, putInvestment_accounts,
            appendEntry_accounts, map_key_put]
          exact hnd
        · intro a ha
          simp only [putAccount_accounts, putInvestment_accounts, appendEntry_accounts] at ha
          simp only [putAccount_ledger, putInvestment_ledger, appendEntry_ledger]
          refine balInv_put1 hnd hinv (by rw [hkey]; exact hb) ?_ a ha
          intro b
          rw [signedSum_append]
          by_cases hba : b = bank.id
          · subst hba
            simp [signedSum, signedAmount, hkey]
          · have hne2 : bankId ≠ b := fun hh => hba (by omega)
            simp [signedSum, signedAmount, hba, hne2]

theorem step_liquidate (s : State) (invId : Nat) (closingValue : Option ℚ)
    (bankOverride : Option Nat) (adminId : Nat)
    (hnd : AccIdsNodup s) (hinv : BalInv s) :
    AccIdsNodup (deleteInvestment s invId closingValue bankOverride adminId).1 ∧
      BalInv (deleteInvestment s invId closingValue bankOverride adminId).1 := by
  cases hv : s.findInvestment invId with
  | none => simp only [deleteInvestment, hv]; exact ⟨hnd, hinv⟩
  | some investment =>
    simp only [deleteInvestment, hv]
    cases hb : s.findAccount (bankOverride.getD investment.bankAccount) with
    | none =>
      cases closingValue with
      | none => exact ⟨hnd, hinv⟩
      | some cv => exact ⟨hnd, hinv⟩
    | some targetBank =>
      cases closingValue with
      | none => exact ⟨hnd, hinv⟩
      | some cv =>
        dsimp only
        obtain ⟨hmem, hkey⟩ := fid_mem hb
        by_cases hz : cv = 0
        · rw [if_pos hz]
          exact ⟨hnd, hinv⟩
        · rw [if_neg hz]
          constructor
          · unfold AccIdsNodup at hnd ⊢
            simp only [putAccount_accounts, appendEntry_accounts, map_key_put]
            exact hnd
          · intro a ha
            simp only [putAccount_accounts, appendEntry_accounts] at ha
            simp only [putAccount_ledger, appendEntry_ledger]
            refine balInv_put1 hnd hinv (by rw [hkey]; exact hb) ?_ a ha
            intro b
            rw [signedSum_append]
            by_cases hba : b = targetBank.id
            · subst hba
              simp [signedSum, signedAmount, hkey]
            · have hne2 : bankOverride.getD investment.bankAccount ≠ b :=
                fun hh => hba (by omega)
              simp [signedSum, signedAmount, hba, hne2]

theorem step_transfer (s : State) (fromId toId : Nat) (amount : ℚ)
    (hok : fromId ≠ toId) (hnd : AccIdsNodup s) (hinv : BalInv s) :
    AccIdsNodup (transferBalance s fromId toId amount).1 ∧
      BalInv (transferBalance s fromId toId amount).1 := by
  cases hf : s.findAccount fromId with
  | none =>
    cases ht : s.findAccount toId with
    | none => simp only [transferBalance, hf, ht]; exact ⟨hnd, hinv⟩
    | some toAcc => simp only [transferBalance, hf, ht]; exact ⟨hnd, hinv⟩
  | some fromAcc =>
    cases ht : s.findAccount toId with
    | none => simp only [transferBalance, hf, ht]; exact ⟨hnd, hinv⟩
    | some toAcc =>
      obtain ⟨hmemf, hkeyf⟩ := fid_mem hf
      obtain ⟨hmemt, hkeyt⟩ := fid_mem ht
      simp only [transferBalance, hf, ht]
      by_cases hlt : fromAcc.currentBalance < amount
      · rw [if_pos hlt]
        exact ⟨hnd, hinv⟩
      · rw [if_neg hlt]
        constructor
        · unfold AccIdsNodup at hnd ⊢
          simp only [putAccount_accounts, appendEntry_accounts, map_key_put]
          exact hnd
        · intro a ha
          simp only [putAccount_accounts, appendEntry_accounts] at ha
          simp only [putAccount_ledger, appendEntry_ledger]
          have heq : ({ fromAcc with currentBalance := fromAcc.currentBalance - amount } : Account)
              = { fromAcc with currentBalance := fromAcc.currentBalance + (-amount) } := by
            rw [sub_eq_add_neg]
          rw [heq] at ha
          have hne : fromAcc.id ≠ toAcc.id := by omega
          refine balInv_put2 hnd hinv (by rw [hkeyf]; exact hf) (by rw [hkeyt]; exact ht)
            hne ?_ a ha
          intro b
          rw [signedSum_append]
          by_cases hbf : b = fromAcc.id
          · subst hbf
            have h1 : toId ≠ fromAcc.id := by omega
            have h2 : fromId = fromAcc.id := by omega
            simp [signedSum, signedAmount, h1, h2, hne]
          · by_cases hbt : b = toAcc.id
            · subst hbt
              have h1 : toId = toAcc.id := by omega
              have h2 : fromId ≠ toAcc.id := by omega
              simp [signedSum, signedAmount, h1, h2, hbf]
            · have h1 : toId ≠ b := by omega
              have h2 : fromId ≠ b := by omega
              simp [signedSum, signedAmount, h1, h2, hbf, hbt]
@[simp] theorem reverseMemberDeposit_accounts (s : State) (tx : Entry) :
    (reverseMemberDeposit s tx).accounts = s.accounts := by
  cases hu : tx.user with
  | none => simp [reverseMemberDeposit, hu]
  | some uId =>
    simp only [reverseMemberDeposit, hu]
    split_ifs
    · cases s.findUser uId <;> simp
    · rfl

@[simp] theorem reverseMemberDeposit_ledger (s : State) (tx : Entry) :
    (reverseMemberDeposit s tx).ledger = s.ledger := by
  cases hu : tx.user with
  | none => simp [reverseMemberDeposit, hu]
  | some uId =>
    simp only [reverseMemberDeposit, hu]
    split_ifs
    · cases s.findUser uId <;> simp
    · rfl

@[simp] theorem reverseMemberDeposit_investments (s : State) (tx : Entry) :
    (reverseMemberDeposit s tx).investments = s.investments := by
  cases hu : tx.user with
  | none => simp [reverseMemberDeposit, hu]
  | some uId =>
    simp only [reverseMemberDeposit, hu]
    split_ifs
    · cases s.findUser uId <;> simp
    · rfl

@[simp] theorem reverseInvestmentProfit_accounts (s : State) (tx : Entry) :
    (reverseInvestmentProfit s tx).accounts = s.accounts := by
  cases hr : tx.referenceId with
  | none => simp [reverseInvestmentProfit, hr]
  | some refId =>
    simp only [reverseInvestmentProfit, hr]
    split_ifs <;> first
      | rfl
      | (cases hfi : s.findInvestment refId <;> simp [hfi])

@[simp] theorem reverseInvestmentProfit_ledger (s : State) (tx : Entry) :
    (reverseInvestmentProfit s tx).ledger = s.ledger := by
  cases hr : tx.referenceId with
  | none => simp [reverseInvestmentProfit, hr]
  | some refId =>
    simp only [reverseInvestmentProfit, hr]
    split_ifs <;> first
      | rfl
      | (cases hfi : s.findInvestment refId <;> simp [hfi])

@[simp] theorem reverseInvestmentProfit_users (s : State) (tx : Entry) :
    (reverseInvestmentProfit s tx).users = s.users := by
  cases hr : tx.referenceId with
  | none => simp [reverseInvestmentProfit, hr]
  | some refId =>
    simp only [reverseInvestmentProfit, hr]
    split_ifs <;> first
      | rfl
      | (cases hfi : s.findInvestment refId <;> simp [hfi])

@[simp] theorem reverseBank_ledger (s : State) (tx : Entry) :
    (reverseBank s tx).ledger = s.ledger := by
  cases hbid : tx.bankAccount with
  | none => simp [reverseBank, hbid]
  | some bId =>
    simp only [reverseBank, hbid]
    cases s.findAccount bId with
    | none => rfl
    | some bank => split_ifs <;> simp

@[simp] theorem reverseBank_users (s : State) (tx : Entry) :
    (reverseBank s tx).users = s.users := by
  cases hbid : tx.bankAccount with
  | none => simp [reverseBank, hbid]
  | some bId =>
    simp only [reverseBank, hbid]
    cases s.findAccount bId with
    | none => rfl
    | some bank => split_ifs <;> simp

@[simp] theorem reverseBank_investments (s : State) (tx : Entry) :
    (reverseBank s tx).investments = s.investments := by
  cases hbid : tx.bankAccount with
  | none => simp [reverseBank, hbid]
  | some bId =>
    simp only [reverseBank, hbid]
    cases s.findAccount bId with
    | none => rfl
    | some bank => split_ifs <;> simp

theorem reverseBank_balInv {s : State} {tx : Entry}
    (hok : tx.txType = TxType.deposit ∨ tx.txType = TxType.expense)
    (hnd : AccIdsNodup s) (hinv : BalInv s) :
    AccIdsNodup (reverseBank s tx) ∧
      ∀ a ∈ (reverseBank s tx).accounts,
        a.currentBalance = signedSum s.ledger a.id - signedAmount tx a.id := by
  cases hbid : tx.bankAccount with
  | none =>
    simp only [reverseBank, hbid]
    refine ⟨hnd, ?_⟩
    intro a ha
    have hz : signedAmount tx a.id = 0 := by
      rcases hok with h | h <;> simp [signedAmount, h, hbid]
    rw [hz, hinv a ha]
    ring
  | some bId =>
    cases hb : s.findAccount bId with
    | none =>
      simp only [reverseBank, hbid, hb]
      refine ⟨hnd, ?_⟩
      intro a ha
      have hne : bId ≠ a.id := (fid_none hb a ha).symm
      have hz : signedAmount tx a.id = 0 := by
        rcases hok with h | h <;> simp [signedAmount, h, hbid, hne]
      rw [hz, hinv a ha]
      ring
    | some bank =>
      obtain ⟨hmem, hkey⟩ := fid_mem hb
      rcases hok with h | h
      · simp only [reverseBank, hbid, hb]
        rw [if_pos h]
        refine ⟨?_, ?_⟩
        · unfold AccIdsNodup at hnd ⊢
          simp only [putAccount_accounts, map_key_put]
          exact hnd
        · intro a ha
          simp only [putAccount_accounts] at ha
          have heq : ({ bank with currentBalance := bank.currentBalance - tx.amount } : Account)
              = { bank with currentBalance := bank.currentBalance + (-tx.amount) } := by
            rw [sub_eq_add_neg]
          rw [heq] at ha
          rcases mem_put hnd ha with rfl | ⟨hal, hane⟩
          · have hs : signedAmount tx bank.id = tx.amount := by
              simp [signedAmount, h, hbid, hkey]
            simp only []
            rw [hs, hinv bank hmem]
            ring
          · have hs : signedAmount tx a.id = 0 := by
              have hbne : bId ≠ a.id := fun hh => hane (by simp; omega)
              simp [signedAmount, h, hbid, hbne]
            rw [hs, hinv a hal]
            ring
      · simp only [reverseBank, hbid, hb]
        rw [if_neg (by simp [h]), if_pos h]
        refine ⟨?_, ?_⟩
        · unfold AccIdsNodup at hnd ⊢
          simp only [putAccount_accounts, map_key_put]
          exact hnd
        · intro a ha
          simp only [putAccount_accounts] at ha
          rcases mem_put hnd ha with rfl | ⟨hal, hane⟩
          · have hs : signedAmount tx bank.id = -tx.amount := by
              simp [signedAmount, h, hbid, hkey]
            simp only []
            rw [hs, hinv bank hmem]
            ring
          · have hs : signedAmount tx a.id = 0 := by
              have hbne : bId ≠ a.id := fun hh => hane (by simp; omega)
              simp [signedAmount, h, hbid, hbne]
            rw [hs, hinv a hal]
            ring

theorem step_reversal (s : State) (txId : Nat)
    (hok : ∀ tx, fid Entry.id s.ledger txId = some tx →
      tx.txType = TxType.deposit ∨ tx.txType = TxType.expense)
    (hnd : AccIdsNodup s) (hinv : BalInv s) :
    AccIdsNodup (deleteTransaction s txId).1 ∧ BalInv (deleteTransaction s txId).1 := by
  cases htx : fid Entry.id s.ledger txId with
  | none => simp only [deleteTransaction, htx]; exact ⟨hnd, hinv⟩
  | some tx =>
    obtain ⟨hnd1, hbal1⟩ := reverseBank_balInv (hok tx htx) hnd hinv
    simp only [deleteTransaction, htx]
    constructor
    · unfold AccIdsNodup at hnd1 ⊢
      simpa using hnd1
    · intro a ha
      simp only [reverseInvestmentProfit_accounts, reverseMemberDeposit_accounts] at ha
      simp only [reverseInvestmentProfit_ledger, reverseMemberDeposit_ledger, reverseBank_ledger]
      rw [signedSum_rem htx]
      exact hbal1 a ha

theorem fid_of_mem_nodup {α : Type} {key : α → Nat} {l : List α} {a : α}
    (hnd : (l.map key).Nodup) (hm : a ∈ l) : fid key l (key a) = some a := by
  induction l with
  | nil => simp at hm
  | cons x xs ih =>
    simp only [List.map_cons, List.nodup_cons] at hnd
    rcases List.mem_cons.mp hm with rfl | hmem
    · rw [fid_cons]
      simp
    · have hx : key x ≠ key a := by
        intro hk
        exact hnd.1 (hk ▸ List.mem_map_of_mem key hmem)
      rw [fid_cons, if_neg hx]
      exact ih hnd.2 hmem

theorem processMember_accounts (orig : State) (motherId : Nat) (settings : FineSettings)
    (finePayers : List Nat) (today : Nat) (acc : State × ℚ) (uid : Nat) :
    (processMember orig motherId settings finePayers today acc uid).1.accounts
      = acc.1.accounts := by
  cases hfu : acc.1.findUser uid with
  | none => simp [processMember, hfu]
  | some user =>
    simp only [processMember, hfu]
    split_ifs <;> simp

theorem processMember_investments (orig : State) (motherId : Nat) (settings : FineSettings)
    (finePayers : List Nat) (today : Nat) (acc : State × ℚ) (uid : Nat) :
    (processMember orig motherId settings finePayers today acc uid).1.investments
      = acc.1.investments := by
  cases hfu : acc.1.findUser uid with
  | none => simp [processMember, hfu]
  | some user =>
    simp only [processMember, hfu]
    split_ifs <;> simp

theorem processMember_ledger (orig : State) (motherId : Nat) (settings : FineSettings)
    (finePayers : List Nat) (today : Nat) (acc : State × ℚ) (uid : Nat) (b : Nat) :
    signedSum (processMember orig motherId settings finePayers today acc uid).1.ledger b
      = signedSum acc.1.ledger b +
        (if b = motherId then
          (processMember orig motherId settings finePayers today acc uid).2 - acc.2
        else 0) := by
  cases hfu : acc.1.findUser uid with
  | none => simp [processMember, hfu]
  | some user =>
    simp only [processMember, hfu]
    by_cases hb : b = motherId
    · subst hb
      simp only [if_pos rfl]
      split_ifs with hp hf
      · simp only [appendEntry_ledger, putUser_ledger]
        rw [signedSum_append, signedSum_append]
        simp [signedSum_cons, signedSum_nil, signedAmount]
        ring
      · simp only [appendEntry_ledger, putUser_ledger]
        rw [signedSum_append]
        simp [signedSum_cons, signedSum_nil, signedAmount]
      · simp only [appendEntry_ledger, putUser_ledger]
        rw [signedSum_append]
        simp [signedSum_cons, signedSum_nil, signedAmount]
    · simp only [if_neg hb]
      have hb2 : motherId ≠ b := fun hh => hb hh.symm
      split_ifs with hp hf
      · simp only [appendEntry_ledger, putUser_ledger]
        rw [signedSum_append, signedSum_append]
        simp [signedSum_cons, signedSum_nil, signedAmount, hb2]
      · simp only [appendEntry_ledger, putUser_ledger]
        rw [signedSum_append]
        simp [signedSum_cons, signedSum_nil, signedAmount, hb2]
      · simp only [appendEntry_ledger, putUser_ledger]
        rw [signedSum_append]
        simp [signedSum_cons, signedSum_nil, signedAmount, hb2]

theorem depositLoop_accounts (orig : State) (motherId : Nat) (settings : FineSettings)
    (finePayers : List Nat) (today : Nat) :
    ∀ (userIds : List Nat) (acc : State × ℚ),
      (userIds.foldl (processMember orig motherId settings finePayers today) acc).1.accounts
        = acc.1.accounts := by
  intro userIds
  induction userIds with
  | nil => intro acc; rfl
  | cons u us ih =>
    intro acc
    rw [List.foldl_cons, ih, processMember_accounts]

theorem depositLoop_investments (orig : State) (motherId : Nat) (settings : FineSettings)
    (finePayers : List Nat) (today : Nat) :
    ∀ (userIds : List Nat) (acc : State × ℚ),
      (userIds.foldl (processMember orig motherId settings finePayers today) acc).1.investments
        = acc.1.investments := by
  intro userIds
  induction userIds with
  | nil => intro acc; rfl
  | cons u us ih =>
    intro acc
    rw [List.foldl_cons, ih, processMember_investments]

theorem depositLoop_ledger (orig : State) (motherId : Nat) (settings : FineSettings)
    (finePayers : List Nat) (today : Nat) :
    ∀ (userIds : List Nat) (acc : State × ℚ) (b : Nat),
      signedSum (userIds.foldl (processMember orig motherId settings finePayers today) acc).1.ledger b
        = signedSum acc.1.ledger b +
          (if b = motherId then
            (userIds.foldl (processMember orig motherId settings finePayers today) acc).2 - acc.2
          else 0) := by
  intro userIds
  induction userIds with
  | nil => intro acc b; simp
  | cons u us ih =>
    intro acc b
    rw [List.foldl_cons, ih, processMember_ledger]
    by_cases hb : b = motherId
    · subst hb
      simp only [eq_self_iff_true, if_true]
      ring
    · simp only [if_neg hb]
      ring

theorem step_depositBatch (s : State) (userIds finePayers : List Nat) (today : Nat)
    (hnd : AccIdsNodup s) (hinv : BalInv s) :
    AccIdsNodup (processDeposit s userIds finePayers today).1 ∧
      BalInv (processDeposit s userIds finePayers today).1 := by
  cases hm : s.accounts.find? (fun a => a.isMotherAccount) with
  | none => simp only [processDeposit, hm]; exact ⟨hnd, hinv⟩
  | some mother =>
    have hmem : mother ∈ s.accounts := List.mem_of_find?_eq_some hm
    simp only [processDeposit, hm]
    constructor
    · unfold AccIdsNodup at hnd ⊢
      simp only [putAccount_accounts, depositLoop_accounts, map_key_put]
      exact hnd
    · intro a ha
      simp only [putAccount_accounts, depositLoop_accounts] at ha
      simp only [putAccount_ledger]
      refine balInv_put1 hnd hinv (fid_of_mem_nodup hnd hmem) ?_ a ha
      intro b
      rw [depositLoop_ledger]
      simp

theorem invariant_step (s : State) (op : EngineOp)
    (hnd : AccIdsNodup s) (hinv : BalInv s) (hok : opOK s op) :
    AccIdsNodup (applyOp s op) ∧ BalInv (applyOp s op) := by
  cases op with
  | depositBatch userIds finePayers today => exact step_depositBatch s userIds finePayers today hnd hinv
  | expense amount bankId category => exact step_expense s amount bankId category hnd hinv
  | fund amount bankId adminId => exact step_fund s amount bankId adminId hnd hinv
  | outcome invId amount isExpense bankId =>
    exact step_outcome s invId amount isExpense bankId hnd hinv
  | liquidate invId closingValue bankOverride adminId =>
    exact step_liquidate s invId closingValue bankOverride adminId hnd hinv
  | transfer fromId toId amount => exact step_transfer s fromId toId amount hok hnd hinv
  | collectFine userId amount bankId => exact step_collectFine s userId amount bankId hnd hinv
  | reversal txId => exact step_reversal s txId hok hnd hinv

theorem fid_append_right {α : Type} {key : α → Nat} {l1 : List α} (l2 : List α) {i : Nat}
    (h : ∀ x ∈ l1, key x ≠ i) : fid key (l1 ++ l2) i = fid key l2 i := by
  induction l1 with
  | nil => rfl
  | cons x xs ih =>
    rw [List.cons_append, fid_cons, if_neg (h x (List.mem_cons_self _ _))]
    exact ih (fun y hy => h y (List.mem_cons_of_mem _ hy))

theorem rem_append_right {α : Type} {key : α → Nat} {l1 : List α} (l2 : List α) {i : Nat}
    (h : ∀ x ∈ l1, key x ≠ i) : rem key (l1 ++ l2) i = l1 ++ rem key l2 i := by
  induction l1 with
  | nil => rfl
  | cons x xs ih =>
    rw [List.cons_append]
    simp only [rem, if_neg (h x (List.mem_cons_self _ _))]
    rw [ih (fun y hy => h y (List.mem_cons_of_mem _ hy)), List.cons_append]

/-- C1 (counterexample): the balance invariant is not preserved by every
sequence of committed operations once reversals are included — collect a
fine of 50 into account 0, transfer 50 from account 0 to account 1, then
delete the transfer entry: `deleteTransaction` does not reverse transfer
entries, so account 0 ends with balance 0 while the signed sum of the
remaining entries referencing it is 50. -/
theorem balance_invariant_fails_after_transfer_reversal :
    BalInv (⟨[⟨0, 0, true⟩, ⟨1, 0, false⟩], [], [], [], none, 2⟩ : State) ∧
    ¬ BalInv (List.foldl applyOp
      (⟨[⟨0, 0, true⟩, ⟨1, 0, false⟩], [], [], [], none, 2⟩ : State)
      [EngineOp.collectFine 5 50 0, EngineOp.transfer 0 1 50, EngineOp.reversal 3]) := by
  have hfinal : (List.foldl applyOp
      (⟨[⟨0, 0, true⟩, ⟨1, 0, false⟩], [], [], [], none, 2⟩ : State)
      [EngineOp.collectFine 5 50 0, EngineOp.transfer 0 1 50, EngineOp.reversal 3]) =
      ⟨[⟨0, 0, true⟩, ⟨1, 50, false⟩], [], [],
        [⟨2, some 5, TxType.deposit, "fine_payment", 50, some 0, none, none, none⟩],
        none, 4⟩ := by
    norm_num [applyOp, collectPaidFine, transferBalance, deleteTransaction,
      reverseBank, reverseMemberDeposit, reverseInvestmentProfit,
      State.findAccount, State.putAccount, State.appendEntry, fid, put, rem]
    decide
  constructor
  · intro a ha
    fin_cases ha <;> rfl
  · rw [hfinal]
    intro h
    have h0 := h ⟨0, 0, true⟩ (by simp)
    norm_num [signedSum, signedAmount] at h0

/-- C1 (amended): the balance invariant — every account's cached balance
equals the signed sum of the ledger entries referencing it — is preserved
by every sequence of committed engine operations, provided each transfer
moves between two distinct accounts and each reversal targets a `deposit`
or `expense` entry (deleteTransaction does not reverse `transfer` or
`investment`-capital entries, which is what the counterexample exploits). -/
theorem balance_invariant_preserved (s : State) (ops : List EngineOp)
    (hnd : AccIdsNodup s) (hinv : BalInv s) (hok : seqOK s ops) :
    BalInv (List.foldl applyOp s ops) := by
  induction ops generalizing s with
  | nil => exact hinv
  | cons op rest ih =>
    obtain ⟨h1, h2⟩ := hok
    obtain ⟨hnd1, hinv1⟩ := invariant_step s op hnd hinv h1
    exact ih (applyOp s op) hnd1 hinv1 h2

/-- C1 witness: the invariant after a fine collection followed by an
expense and a transfer between two distinct accounts. -/
theorem balance_invariant_preserved_witness :
    BalInv (List.foldl applyOp
      (⟨[⟨0, 0, true⟩, ⟨1, 0, false⟩], [], [], [], none, 2⟩ : State)
      [EngineOp.collectFine 5 50 0, EngineOp.expense 20 0 "General Expense",
        EngineOp.transfer 0 1 10]) :=
  balance_invariant_preserved _ _
    (by simp [AccIdsNodup])
    (by intro a ha; fin_cases ha <;> rfl)
    (by refine ⟨trivial, trivial, ?_, trivial⟩; simp [opOK])

theorem roundtrip_expense (s : State) (amount : ℚ) (bankId : Nat) (cat : String)
    (bank : Account) (hL : LedgerFresh s) (hb : s.findAccount bankId = some bank) :
    Restores s (deleteTransaction (addExpense s amount bankId cat).1 s.nextId).1 := by
  obtain ⟨hmem, hkey⟩ := fid_mem hb
  have hne : ∀ x ∈ s.ledger, x.id ≠ s.nextId := fun x hx => by
    have := hL x hx; omega
  have hfb : fid Account.id s.accounts bank.id = some bank := by
    rw [hkey]; exact hb
  simp only [addExpense, hb]
  simp only [deleteTransaction, State.putAccount, State.appendEntry]
  rw [fid_append_right _ hne, fid_cons]
  rw [if_pos rfl]
  dsimp only
  have hput1 : fid Account.id (put Account.id s.accounts { id := bank.id, currentBalance := bank.currentBalance - amount, isMotherAccount := bank.isMotherAccount }) bankId = some { id := bank.id, currentBalance := bank.currentBalance - amount, isMotherAccount := bank.isMotherAccount } := by
    rw [← hkey]
    exact fid_put_self _ hfb
  have hpp : put Account.id (put Account.id s.accounts { id := bank.id, currentBalance := bank.currentBalance - amount, isMotherAccount := bank.isMotherAccount }) { id := bank.id, currentBalance := bank.currentBalance, isMotherAccount := bank.isMotherAccount } = s.accounts := by
    rw [put_put Account.id s.accounts { id := bank.id, currentBalance := bank.currentBalance - amount, isMotherAccount := bank.isMotherAccount } { id := bank.id, currentBalance := bank.currentBalance, isMotherAccount := bank.isMotherAccount } rfl]
    exact put_self hfb
  have hrem : rem Entry.id (s.ledger ++ [{ id := s.nextId, user := none, txType := TxType.expense, category := cat, amount := amount, bankAccount := some bankId, referenceId := none, transferFrom := none, transferTo := none }]) s.nextId = s.ledger := by
    rw [rem_append_right _ hne]
    simp [rem]
  simp [Restores, reverseBank, reverseMemberDeposit, reverseInvestmentProfit,
    State.findAccount, State.putAccount, hput1, hpp, hrem]

theorem roundtrip_collectFine (s : State) (userId : Nat) (amount : ℚ) (bankId : Nat)
    (bank : Account) (hL : LedgerFresh s) (hb : s.findAccount bankId = some bank) :
    Restores s (deleteTransaction (collectPaidFine s userId amount bankId).1 s.nextId).1 := by
  obtain ⟨hmem, hkey⟩ := fid_mem hb
  have hne : ∀ x ∈ s.ledger, x.id ≠ s.nextId := fun x hx => by
    have := hL x hx; omega
  have hfb : fid Account.id s.accounts bank.id = some bank := by
    rw [hkey]; exact hb
  simp only [collectPaidFine, hb]
  simp only [deleteTransaction, State.putAccount, State.appendEntry]
  rw [fid_append_right _ hne, fid_cons]
  rw [if_pos rfl]
  dsimp only
  have hput1 : fid Account.id (put Account.id s.accounts { id := bank.id, currentBalance := bank.currentBalance + amount, isMotherAccount := bank.isMotherAccount }) bankId = some { id := bank.id, currentBalance := bank.currentBalance + amount, isMotherAccount := bank.isMotherAccount } := by
    rw [← hkey]
    exact fid_put_self _ hfb
  have hpp : put Account.id (put Account.id s.accounts { id := bank.id, currentBalance := bank.currentBalance + amount, isMotherAccount := bank.isMotherAccount }) { id := bank.id, currentBalance := bank.currentBalance, isMotherAccount := bank.isMotherAccount } = s.accounts := by
    rw [put_put Account.id s.accounts { id := bank.id, currentBalance := bank.currentBalance + amount, isMotherAccount := bank.isMotherAccount } { id := bank.id, currentBalance := bank.currentBalance, isMotherAccount := bank.isMotherAccount } rfl]
    exact put_self hfb
  have hrem : rem Entry.id (s.ledger ++ [{ id := s.nextId, user := some userId, txType := TxType.deposit, category := "fine_payment", amount := amount, bankAccount := some bankId, referenceId := none, transferFrom := none, transferTo := none }]) s.nextId = s.ledger := by
    rw [rem_append_right _ hne]
    simp [rem]
  simp [Restores, reverseBank, reverseMemberDeposit, reverseInvestmentProfit,
    State.findAccount, State.putAccount, State.findUser, hput1, hpp, hrem]

theorem roundtrip_outcome (s : State) (invId : Nat) (amount : ℚ) (isExpense : Bool)
    (bankId : Nat) (inv : Investment) (bank : Account) (hL : LedgerFresh s)
    (hv : s.findInvestment invId = some inv) (hb : s.findAccount bankId = some bank) :
    Restores s (deleteTransaction
      (recordInvestmentProfit s invId amount isExpense bankId).1 s.nextId).1 := by
  obtain ⟨hmemb, hkeyb⟩ := fid_mem hb
  obtain ⟨hmemv, hkeyv⟩ := fid_mem hv
  have hne : ∀ x ∈ s.ledger, x.id ≠ s.nextId := fun x hx => by
    have := hL x hx; omega
  have hfb : fid Account.id s.accounts bank.id = some bank := by
    rw [hkeyb]; exact hb
  have hfv : fid Investment.id s.investments inv.id = some inv := by
    rw [hkeyv]; exact hv
  simp only [recordInvestmentProfit, hv, hb]
  cases isExpense with
  | true =>
    simp only [if_true, Bool.true_eq_false, if_false]
    simp only [deleteTransaction, State.putAccount, State.putInvestment, State.appendEntry]
    rw [fid_append_right _ hne, fid_cons]
    rw [if_pos rfl]
    dsimp only
    have hput1 : fid Account.id (put Account.id s.accounts { id := bank.id, currentBalance := bank.currentBalance - amount, isMotherAccount := bank.isMotherAccount }) bankId = some { id := bank.id, currentBalance := bank.currentBalance - amount, isMotherAccount := bank.isMotherAccount } := by
      rw [← hkeyb]
      exact fid_put_self _ hfb
    have hpp : put Account.id (put Account.id s.accounts { id := bank.id, currentBalance := bank.currentBalance - amount, isMotherAccount := bank.isMotherAccount }) { id := bank.id, currentBalance := bank.currentBalance, isMotherAccount := bank.isMotherAccount } = s.accounts := by
      rw [put_put Account.id s.accounts { id := bank.id, currentBalance := bank.currentBalance - amount, isMotherAccount := bank.isMotherAccount } { id := bank.id, currentBalance := bank.currentBalance, isMotherAccount := bank.isMotherAccount } rfl]
      exact put_self hfb
    have hput2 : fid Investment.id (put Investment.id s.investments { id := inv.id, amount := inv.amount, bankAccount := inv.bankAccount, totalProfit := inv.totalProfit - amount }) invId = some { id := inv.id, amount := inv.amount, bankAccount := inv.bankAccount, totalProfit := inv.totalProfit - amount } := by
      rw [← hkeyv]
      exact fid_put_self _ hfv
    have hppv : put Investment.id (put Investment.id s.investments { id := inv.id, amount := inv.amount, bankAccount := inv.bankAccount, totalProfit := inv.totalProfit - amount }) { id := inv.id, amount := inv.amount, bankAccount := inv.bankAccount, totalProfit := inv.totalProfit } = s.investments := by
      rw [put_put Investment.id s.investments { id := inv.id, amount := inv.amount, bankAccount := inv.bankAccount, totalProfit := inv.totalProfit - amount } { id := inv.id, amount := inv.amount, bankAccount := inv.bankAccount, totalProfit := inv.totalProfit } rfl]
      exact put_self hfv
    have hrem : rem Entry.id (s.ledger ++ [{ id := s.nextId, user := none, txType := TxType.expense, category := "investment_expense", amount := amount, bankAccount := some bankId, referenceId := some invId, transferFrom := none, transferTo := none }]) s.nextId = s.ledger := by
      rw [rem_append_right _ hne]
      simp [rem]
    have hstr : strIncludes "investment_expense" "investment" = true := by decide
    simp [Restores, reverseBank, reverseMemberDeposit, reverseInvestmentProfit,
      State.findAccount, State.putAccount, State.findInvestment, State.putInvestment,
      hput1, hpp, hput2, hppv, hrem, hstr]
  | false =>
    simp only [Bool.false_eq_true, if_false, if_true]
    simp only [deleteTransaction, State.putAccount, State.putInvestment, State.appendEntry]
    rw [fid_append_right _ hne, fid_cons]
    rw [if_pos rfl]
    dsimp only
    have hput1 : fid Account.id (put Account.id s.accounts { id := bank.id, currentBalance := bank.currentBalance + amount, isMotherAccount := bank.isMotherAccount }) bankId = some { id := bank.id, currentBalance := bank.currentBalance + amount, isMotherAccount := bank.isMotherAccount } := by
      rw [← hkeyb]
      exact fid_put_self _ hfb
    have hpp : put Account.id (put Account.id s.accounts { id := bank.id, currentBalance := bank.currentBalance + amount, isMotherAccount := bank.isMotherAccount }) { id := bank.id, currentBalance := bank.currentBalance, isMotherAccount := bank.isMotherAccount } = s.accounts := by
      rw [put_put Account.id s.accounts { id := bank.id, currentBalance := bank.currentBalance + amount, isMotherAccount := bank.isMotherAccount } { id := bank.id, currentBalance := bank.currentBalance, isMotherAccount := bank.isMotherAccount } rfl]
      exact put_self hfb
    have hput2 : fid Investment.id (put Investment.id s.investments { id := inv.id, amount := inv.amount, bankAccount := inv.bankAccount, totalProfit := inv.totalProfit + amount }) invId = some { id := inv.id, amount := inv.amount, bankAccount := inv.bankAccount, totalProfit := inv.totalProfit + amount } := by
      rw [← hkeyv]
      exact fid_put_self _ hfv
    have hppv : put Investment.id (put Investment.id s.investments { id := inv.id, amount := inv.amount, bankAccount := inv.bankAccount, totalProfit := inv.totalProfit + amount }) { id := inv.id, amount := inv.amount, bankAccount := inv.bankAccount, totalProfit := inv.totalProfit } = s.investments := by
      rw [put_put Investment.id s.investments { id := inv.id, amount := inv.amount, bankAccount := inv.bankAccount, totalProfit := inv.totalProfit + amount } { id := inv.id, amount := inv.amount, bankAccount := inv.bankAccount, totalProfit := inv.totalProfit } rfl]
      exact put_self hfv
    have hrem : rem Entry.id (s.ledger ++ [{ id := s.nextId, user := none, txType := TxType.deposit, category := "investment_profit", amount := amount, bankAccount := some bankId, referenceId := some invId, transferFrom := none, transferTo := none }]) s.nextId = s.ledger := by
      rw [rem_append_right _ hne]
      simp [rem]
    have hstr : strIncludes "investment_profit" "investment" = true := by decide
    simp [Restores, reverseBank, reverseMemberDeposit, reverseInvestmentProfit,
      State.findAccount, State.putAccount, State.findInvestment, State.putInvestment,
      hput1, hpp, hput2, hppv, hrem, hstr]

theorem roundtrip_deposit (s : State) (uid : Nat) (today : Nat)
    (mother : Account) (u : Member) (hnd : AccIdsNodup s) (hL : LedgerFresh s)
    (hm : s.accounts.find? (fun a => a.isMotherAccount) = some mother)
    (hu : s.findUser uid = some u) :
    Restores s (deleteTransaction (processDeposit s [uid] [] today).1 s.nextId).1 := by
  obtain ⟨hmemu, hkeyu⟩ := fid_mem hu
  have hmemm : mother ∈ s.accounts := List.mem_of_find?_eq_some hm
  have hfm : fid Account.id s.accounts mother.id = some mother := fid_of_mem_nodup hnd hmemm
  have hfu : fid Member.id s.users u.id = some u := by
    rw [hkeyu]; exact hu
  have hne : ∀ x ∈ s.ledger, x.id ≠ s.nextId := fun x hx => by
    have := hL x hx; omega
  simp only [processDeposit, hm, List.foldl_cons, List.foldl_nil]
  simp only [processMember, hu]
  simp only [List.not_mem_nil, if_false, if_neg (List.not_mem_nil uid)]
  simp only [deleteTransaction, State.putAccount, State.putUser, State.appendEntry]
  rw [fid_append_right _ hne, fid_cons]
  rw [if_pos rfl]
  dsimp only
  have hput1 : fid Account.id (put Account.id s.accounts { id := mother.id, currentBalance := mother.currentBalance + (jsOr u.shares 1 : ℚ) * 1000, isMotherAccount := mother.isMotherAccount }) mother.id = some { id := mother.id, currentBalance := mother.currentBalance + (jsOr u.shares 1 : ℚ) * 1000, isMotherAccount := mother.isMotherAccount } := by
    exact fid_put_self _ hfm
  have hpp : put Account.id (put Account.id s.accounts { id := mother.id, currentBalance := mother.currentBalance + (jsOr u.shares 1 : ℚ) * 1000, isMotherAccount := mother.isMotherAccount }) { id := mother.id, currentBalance := mother.currentBalance, isMotherAccount := mother.isMotherAccount } = s.accounts := by
    rw [put_put Account.id s.accounts { id := mother.id, currentBalance := mother.currentBalance + (jsOr u.shares 1 : ℚ) * 1000, isMotherAccount := mother.isMotherAccount } { id := mother.id, currentBalance := mother.currentBalance, isMotherAccount := mother.isMotherAccount } rfl]
    exact put_self hfm
  have hputu : fid Member.id (put Member.id s.users { id := u.id, shares := u.shares, monthlySubscription := u.monthlySubscription, joinMonth := u.joinMonth, totalDeposited := u.totalDeposited + (jsOr u.shares 1 : ℚ) * 1000 }) uid = some { id := u.id, shares := u.shares, monthlySubscription := u.monthlySubscription, joinMonth := u.joinMonth, totalDeposited := u.totalDeposited + (jsOr u.shares 1 : ℚ) * 1000 } := by
    rw [← hkeyu]
    exact fid_put_self _ hfu
  have hppu : put Member.id (put Member.id s.users { id := u.id, shares := u.shares, monthlySubscription := u.monthlySubscription, joinMonth := u.joinMonth, totalDeposited := u.totalDeposited + (jsOr u.shares 1 : ℚ) * 1000 }) { id := u.id, shares := u.shares, monthlySubscription := u.monthlySubscription, joinMonth := u.joinMonth, totalDeposited := u.totalDeposited } = s.users := by
    rw [put_put Member.id s.users { id := u.id, shares := u.shares, monthlySubscription := u.monthlySubscription, joinMonth := u.joinMonth, totalDeposited := u.totalDeposited + (jsOr u.shares 1 : ℚ) * 1000 } { id := u.id, shares := u.shares, monthlySubscription := u.monthlySubscription, joinMonth := u.joinMonth, totalDeposited := u.totalDeposited } rfl]
    exact put_self hfu
  have hrem : rem Entry.id (s.ledger ++ [{ id := s.nextId, user := some uid, txType := TxType.deposit, category := "monthly_deposit", amount := (jsOr u.shares 1 : ℚ) * 1000, bankAccount := some mother.id, referenceId := none, transferFrom := none, transferTo := none }]) s.nextId = s.ledger := by
    rw [rem_append_right _ hne]
    simp [rem]
  simp [Restores, reverseBank, reverseMemberDeposit, reverseInvestmentProfit,
    State.findAccount, State.putAccount, State.findUser, State.putUser,
    hput1, hpp, hputu, hppu, hrem]

/-- C4 (counterexample): deleting the ledger entry produced by a transfer
does not restore the balances — starting from accounts 0 (balance 100) and
1 (balance 0), transferring 50 and then deleting the transfer entry leaves
account 0 at 50, not at its pre-operation value 100. -/
theorem transfer_reversal_not_inverse :
    ((deleteTransaction (transferBalance
        (⟨[⟨0, 100, true⟩, ⟨1, 0, false⟩], [], [], [], none, 2⟩ : State) 0 1 50).1 2).1.findAccount 0).map
      Account.currentBalance = some 50 ∧
    ((⟨[⟨0, 100, true⟩, ⟨1, 0, false⟩], [], [], [], none, 2⟩ : State).findAccount 0).map
      Account.currentBalance = some 100 ∧
    (50 : ℚ) ≠ 100 := by
  refine ⟨?_, by norm_num [State.findAccount, fid], by norm_num⟩
  norm_num [transferBalance, deleteTransaction,
    reverseBank, reverseMemberDeposit, reverseInvestmentProfit,
    State.findAccount, State.putAccount, State.appendEntry, fid, put, rem]

/-- C6: `addInvestment` (the spec's fundInvestment) reports insufficient
funds whenever the funding account's balance is strictly below the requested
amount, and in that case the returned state is exactly the pre-call state:
the account balances, the ledger and the investment collection are all
untouched (the check runs before any write). -/
theorem fund_investment_insufficient_funds_atomic (s : State) (amount : ℚ)
    (bankId adminId : Nat) (bank : Account)
    (hb : s.findAccount bankId = some bank)
    (hlt : bank.currentBalance < amount) :
    addInvestment s amount bankId adminId = (s, some Err.insufficientFunds) := by
  simp only [addInvestment, hb, if_pos hlt]

/-- C6 witness: funding 50 from an account holding 10 fails and returns the
unchanged state. -/
theorem fund_investment_insufficient_funds_atomic_witness :
    addInvestment (⟨[⟨0, 10, true⟩], [], [], [], none, 1⟩ : State) 50 0 7
      = ((⟨[⟨0, 10, true⟩], [], [], [], none, 1⟩ : State), some Err.insufficientFunds) :=
  fund_investment_insufficient_funds_atomic _ 50 0 7 ⟨0, 10, true⟩ (by rfl) (by norm_num)

/-- C10: `deleteBankAccount` refuses (returning the balance-not-zero error
and the unchanged state) exactly when the target account's cached balance is
strictly positive, and removes the account whenever the balance is zero or
negative. -/
theorem delete_account_balance_guard (s : State) (accId : Nat) (account : Account)
    (hb : s.findAccount accId = some account) :
    (0 < account.currentBalance →
        deleteBankAccount s accId = (s, some Err.balanceNotZero)) ∧
    (account.currentBalance ≤ 0 →
        deleteBankAccount s accId
          = ({ s with accounts := rem Account.id s.accounts accId }, none)) := by
  constructor
  · intro h
    simp only [deleteBankAccount, hb, if_pos h]
  · intro h
    simp only [deleteBankAccount, hb, if_neg (not_lt.mpr h)]

/-- C10 witness: an account holding 5 cannot be deleted. -/
theorem delete_account_balance_guard_witness :
    deleteBankAccount (⟨[⟨0, 5, true⟩], [], [], [], none, 1⟩ : State) 0
      = ((⟨[⟨0, 5, true⟩], [], [], [], none, 1⟩ : State), some Err.balanceNotZero) :=
  (delete_account_balance_guard _ 0 ⟨0, 5, true⟩ (by rfl)).1 (by norm_num)

/-- C8 (counterexample): for a lone member with `monthlySubscription` 500
and one share, the deposit batch emits a share entry of amount 1000 — the
fixed per-share unit — not shares × monthlySubscription = 500: the member's
own subscription rate is ignored by the deposit path. -/
theorem share_amount_ignores_subscription :
    (processDeposit (⟨[⟨0, 0, true⟩], [⟨1, 1, 500, 0, 0⟩], [], [], none, 5⟩ : State)
        [1] [] 7).1.ledger
      = [{ id := 5, user := some 1, txType := TxType.deposit,
           category := "monthly_deposit", amount := 1000, bankAccount := some 0,
           referenceId := none, transferFrom := none, transferTo := none }] ∧
    (1 : ℚ) * 500 ≠ 1000 := by
  constructor
  · have hm : ([(⟨0, 0, true⟩ : Account)] : List Account).find?
        (fun a => a.isMotherAccount) = some ⟨0, 0, true⟩ := rfl
    norm_num [processDeposit, hm, processMember, State.findUser, State.putUser,
      State.putAccount, State.appendEntry, fid, put, jsOr]
  · norm_num

theorem processMember_users_ne (orig : State) (motherId : Nat) (settings : FineSettings)
    (finePayers : List Nat) (today : Nat) (acc : State × ℚ) (uid' uid : Nat)
    (hne : uid' ≠ uid) :
    (processMember orig motherId settings finePayers today acc uid').1.findUser uid
      = acc.1.findUser uid := by
  cases hfu : acc.1.findUser uid' with
  | none => simp [processMember, hfu]
  | some user =>
    obtain ⟨hmemu, hkey⟩ := fid_mem hfu
    have hkne : uid ≠ user.id := fun h => hne ((h.trans hkey).symm)
    simp only [processMember, hfu]
    split_ifs with hp hf
    · simp only [State.findUser, appendEntry_users, putUser_users]
      exact fid_put_ne _ _ hkne
    · simp only [State.findUser, appendEntry_users, putUser_users]
      exact fid_put_ne _ _ hkne
    · simp only [State.findUser, appendEntry_users, putUser_users]
      exact fid_put_ne _ _ hkne

theorem processMember_users_self (orig : State) (motherId : Nat) (settings : FineSettings)
    (finePayers : List Nat) (today : Nat) (acc : State × ℚ) (uid : Nat) (u : Member)
    (hu : acc.1.findUser uid = some u) :
    (processMember orig motherId settings finePayers today acc uid).1.findUser uid
      = some { u with totalDeposited :=
          u.totalDeposited + (jsOr u.shares 1 : ℚ) * 1000 } := by
  obtain ⟨hmemu, hkey⟩ := fid_mem hu
  have hfu : fid Member.id acc.1.users u.id = some u := by rw [hkey]; exact hu
  simp only [processMember, hu]
  split_ifs with hp hf
  · simp only [State.findUser, appendEntry_users, putUser_users]
    rw [← hkey]
    exact fid_put_self _ hfu
  · simp only [State.findUser, appendEntry_users, putUser_users]
    rw [← hkey]
    exact fid_put_self _ hfu
  · simp only [State.findUser, appendEntry_users, putUser_users]
    rw [← hkey]
    exact fid_put_self _ hfu

theorem depositLoop_users_not_mem (orig : State) (motherId : Nat) (settings : FineSettings)
    (finePayers : List Nat) (today : Nat) :
    ∀ (userIds : List Nat) (acc : State × ℚ) (uid : Nat), uid ∉ userIds →
      (userIds.foldl (processMember orig motherId settings finePayers today) acc).1.findUser uid
        = acc.1.findUser uid := by
  intro userIds
  induction userIds with
  | nil => intro acc uid _; rfl
  | cons v vs ih =>
    intro acc uid hmem
    have hv : v ≠ uid := fun h => hmem (List.mem_cons.mpr (Or.inl h.symm))
    have hvs : uid ∉ vs := fun h => hmem (List.mem_cons_of_mem v h)
    rw [List.foldl_cons, ih _ uid hvs]
    exact processMember_users_ne orig motherId settings finePayers today acc v uid hv

theorem depositLoop_users_mem (orig : State) (motherId : Nat) (settings : FineSettings)
    (finePayers : List Nat) (today : Nat) :
    ∀ (userIds : List Nat) (acc : State × ℚ) (uid : Nat) (u : Member),
      userIds.Nodup → uid ∈ userIds → acc.1.findUser uid = some u →
      (userIds.foldl (processMember orig motherId settings finePayers today) acc).1.findUser uid
        = some { u with totalDeposited :=
            u.totalDeposited + (jsOr u.shares 1 : ℚ) * 1000 } := by
  intro userIds
  induction userIds with
  | nil => intro acc uid u _ hmem _; exact absurd hmem (List.not_mem_nil uid)
  | cons v vs ih =>
    intro acc uid u hnd hmem hu
    rw [List.foldl_cons]
    rcases List.mem_cons.mp hmem with rfl | hm
    · have hvs : uid ∉ vs := (List.nodup_cons.mp hnd).1
      rw [depositLoop_users_not_mem orig motherId settings finePayers today vs _ uid hvs]
      exact processMember_users_self orig motherId settings finePayers today acc uid u hu
    · have hv : v ≠ uid := by
        intro h
        exact (List.nodup_cons.mp hnd).1 (by rw [h]; exact hm)
      refine ih _ uid u (List.nodup_cons.mp hnd).2 hm ?_
      rw [processMember_users_ne orig motherId settings finePayers today acc v uid hv]
      exact hu

theorem processDeposit_totalDeposited (s : State) (userIds finePayers : List Nat)
    (today : Nat) (uid : Nat) (u : Member) (mother : Account)
    (hm : s.accounts.find? (fun a => a.isMotherAccount) = some mother)
    (hnd : userIds.Nodup) (hmem : uid ∈ userIds) (hu : s.findUser uid = some u) :
    (processDeposit s userIds finePayers today).1.findUser uid
      = some { u with totalDeposited :=
          u.totalDeposited + (jsOr u.shares 1 : ℚ) * 1000 } := by
  simp only [processDeposit, hm]
  simp only [State.findUser, putAccount_users]
  exact depositLoop_users_mem s mother.id _ finePayers today userIds (s, 0) uid u hnd hmem hu

theorem collectPaidFine_users (s : State) (userId : Nat) (amount : ℚ)
    (bankAccountId : Nat) :
    (collectPaidFine s userId amount bankAccountId).1.users = s.users := by
  cases hb : s.findAccount bankAccountId with
  | none => simp [collectPaidFine, hb]
  | some bank => simp [collectPaidFine, hb]

/-- C5: in the deposit batch every processed member's `totalDeposited`
(lifetimeDeposited) increases by exactly the share amount and by nothing
else; `collectPaidFine` (and the batch's own `fine_payment` entries, which
only touch the ledger and the mother balance) never changes the users
collection; and the concrete scenario: a batch of 3 members each with 2
shares against a mother account at balance 0, with no fine payers, ends at
balance 6000 with each member's `totalDeposited` raised by exactly 2000. -/
theorem lifetime_deposited_share_only :
    (∀ (s : State) (userIds finePayers : List Nat) (today uid : Nat)
        (u : Member) (mother : Account),
      s.accounts.find? (fun a => a.isMotherAccount) = some mother →
      userIds.Nodup → uid ∈ userIds → s.findUser uid = some u →
      (processDeposit s userIds finePayers today).1.findUser uid
        = some { u with totalDeposited :=
            u.totalDeposited + (jsOr u.shares 1 : ℚ) * 1000 }) ∧
    (∀ (s : State) (userId : Nat) (amount : ℚ) (bankAccountId : Nat),
      (collectPaidFine s userId amount bankAccountId).1.users = s.users) ∧
    (((processDeposit (⟨[⟨0, 0, true⟩],
          [⟨1, 2, 1000, 0, 0⟩, ⟨2, 2, 1000, 0, 0⟩, ⟨3, 2, 1000, 0, 0⟩],
          [], [], none, 10⟩ : State) [1, 2, 3] [] 7).1.findAccount 0).map
        Account.currentBalance = some 6000 ∧
      ∀ uid ∈ [1, 2, 3],
        ((processDeposit (⟨[⟨0, 0, true⟩],
            [⟨1, 2, 1000, 0, 0⟩, ⟨2, 2, 1000, 0, 0⟩, ⟨3, 2, 1000, 0, 0⟩],
            [], [], none, 10⟩ : State) [1, 2, 3] [] 7).1.findUser uid).map
          Member.totalDeposited = some 2000) := by
  refine ⟨?_, collectPaidFine_users, ?_, ?_⟩
  · intro s userIds finePayers today uid u mother hm hnd hmem hu
    exact processDeposit_totalDeposited s userIds finePayers today uid u mother hm hnd hmem hu
  · have hm : ([(⟨0, 0, true⟩ : Account)] : List Account).find?
        (fun a => a.isMotherAccount) = some ⟨0, 0, true⟩ := rfl
    norm_num [processDeposit, hm, processMember, State.findUser, State.findAccount,
      State.putUser, State.putAccount, State.appendEntry, fid, put, jsOr]
  · intro uid hmem
    have hu1 := processDeposit_totalDeposited (⟨[⟨0, 0, true⟩],
        [⟨1, 2, 1000, 0, 0⟩, ⟨2, 2, 1000, 0, 0⟩, ⟨3, 2, 1000, 0, 0⟩],
        [], [], none, 10⟩ : State) [1, 2, 3] [] 7 1 ⟨1, 2, 1000, 0, 0⟩ ⟨0, 0, true⟩
      rfl (by decide) (by decide) rfl
    have hu2 := processDeposit_totalDeposited (⟨[⟨0, 0, true⟩],
        [⟨1, 2, 1000, 0, 0⟩, ⟨2, 2, 1000, 0, 0⟩, ⟨3, 2, 1000, 0, 0⟩],
        [], [], none, 10⟩ : State) [1, 2, 3] [] 7 2 ⟨2, 2, 1000, 0, 0⟩ ⟨0, 0, true⟩
      rfl (by decide) (by decide) rfl
    have hu3 := processDeposit_totalDeposited (⟨[⟨0, 0, true⟩],
        [⟨1, 2, 1000, 0, 0⟩, ⟨2, 2, 1000, 0, 0⟩, ⟨3, 2, 1000, 0, 0⟩],
        [], [], none, 10⟩ : State) [1, 2, 3] [] 7 3 ⟨3, 2, 1000, 0, 0⟩ ⟨0, 0, true⟩
      rfl (by decide) (by decide) rfl
    rcases List.mem_cons.mp hmem with rfl | hmem
    · rw [hu1]
      norm_num [jsOr]
    rcases List.mem_cons.mp hmem with rfl | hmem
    · rw [hu2]
      norm_num [jsOr]
    rcases List.mem_cons.mp hmem with rfl | hmem
    · rw [hu3]
      norm_num [jsOr]
    exact absurd hmem (List.not_mem_nil uid)

/-- C5 witness: one member with 2 shares, processed alone, ends with
`totalDeposited` raised by the share amount 2000 only. -/
theorem lifetime_deposited_share_only_witness :
    (processDeposit (⟨[⟨0, 0, true⟩], [⟨1, 2, 1000, 0, 0⟩], [], [], none, 9⟩ : State)
        [1] [] 7).1.findUser 1
      = some { id := 1, shares := 2, monthlySubscription := 1000, joinMonth := 0,
               totalDeposited := 0 + (jsOr 2 1 : ℚ) * 1000 } :=
  lifetime_deposited_share_only.1 _ [1] [] 7 1 ⟨1, 2, 1000, 0, 0⟩ ⟨0, 0, true⟩
    (by rfl) (by decide) (by decide) (by rfl)

theorem countMother_cons (x : Account) (xs : List Account) :
    countMother (x :: xs) = (if x.isMotherAccount then 1 else 0) + countMother xs := by
  simp only [countMother, List.filter_cons]
  cases hx : x.isMotherAccount
  · simp
  · simp only [if_pos rfl, List.length_cons, if_true]
    omega

theorem countMother_append (l1 l2 : List Account) :
    countMother (l1 ++ l2) = countMother l1 + countMother l2 := by
  simp [countMother, List.filter_append]

theorem countMother_zero (l : List Account)
    (hall : ∀ x ∈ l, x.isMotherAccount = false) : countMother l = 0 := by
  induction l with
  | nil => rfl
  | cons x xs ih =>
    rw [countMother_cons, hall x (List.mem_cons_self x xs)]
    simpa using ih (fun y hy => hall y (List.mem_cons_of_mem x hy))

theorem countMother_clear (l : List Account) :
    countMother (l.map (fun a => { a with isMotherAccount := false })) = 0 := by
  refine countMother_zero _ ?_
  intro x hx
  obtain ⟨y, hy, rfl⟩ := List.mem_map.mp hx
  rfl

theorem countMother_put_false (l : List Account) (a : Account)
    (ha : a.isMotherAccount = false) :
    countMother (put Account.id l a) ≤ countMother l := by
  induction l with
  | nil => exact Nat.le_refl 0
  | cons x xs ih =>
    by_cases h : Account.id x = Account.id a
    · simp only [put, if_pos h, countMother_cons, ha, Bool.false_eq_true, if_false,
        Nat.zero_add]
      exact Nat.le_add_left _ _
    · simp only [put, if_neg h, countMother_cons]
      exact Nat.add_le_add_left ih _

theorem countMother_put_true_unique (l : List Account) (a : Account)
    (hall : ∀ x ∈ l, x.isMotherAccount = false)
    (hf : (fid Account.id l (Account.id a)).isSome)
    (ha : a.isMotherAccount = true) :
    countMother (put Account.id l a) = 1 := by
  induction l with
  | nil => simp [fid] at hf
  | cons x xs ih =>
    by_cases h : Account.id x = Account.id a
    · have hxs : countMother xs = 0 :=
        countMother_zero xs (fun y hy => hall y (List.mem_cons_of_mem x hy))
      simp [put, if_pos h, countMother_cons, ha, hxs]
    · have hx : x.isMotherAccount = false := hall x (List.mem_cons_self x xs)
      have hf2 : (fid Account.id xs (Account.id a)).isSome := by
        rw [fid_cons, if_neg h] at hf
        exact hf
      have hrec := ih (fun y hy => hall y (List.mem_cons_of_mem x hy)) hf2
      simp [put, if_neg h, countMother_cons, hx, hrec]

theorem countMother_rem_le (l : List Account) (i : Nat) :
    countMother (rem Account.id l i) ≤ countMother l := by
  induction l with
  | nil => exact Nat.le_refl 0
  | cons x xs ih =>
    by_cases h : Account.id x = i
    · simp only [rem, if_pos h, countMother_cons]
      exact Nat.le_add_left _ _
    · simp only [rem, if_neg h, countMother_cons]
      exact Nat.add_le_add_left ih _

theorem fid_isSome_map_clear (l : List Account) (i : Nat) :
    (fid Account.id (l.map (fun a => { a with isMotherAccount := false })) i).isSome
      = (fid Account.id l i).isSome := by
  induction l with
  | nil => rfl
  | cons x xs ih =>
    by_cases h : Account.id x = i
    · simp [fid, h]
    · simp [fid, h, ih]

theorem addBank_flag_one (s : State) (bal : ℚ) :
    countMother ((addBankAccount s true bal).1).accounts = 1 := by
  simp [addBankAccount, countMother_append, countMother_clear, countMother_cons, countMother]

theorem updateBank_flag_one (s : State) (accId : Nat)
    (hf : (fid Account.id s.accounts accId).isSome) :
    countMother ((updateBankAccount s accId (some true)).1).accounts = 1 := by
  have hf1 : (fid Account.id (s.accounts.map
      (fun a => { a with isMotherAccount := false })) accId).isSome := by
    rw [fid_isSome_map_clear]
    exact hf
  obtain ⟨acc, hacc⟩ := Option.isSome_iff_exists.mp hf1
  obtain ⟨hmem, hkey⟩ := fid_mem hacc
  have hall : ∀ x ∈ s.accounts.map (fun a => { a with isMotherAccount := false }),
      x.isMotherAccount = false := by
    intro x hx
    obtain ⟨y, hy, rfl⟩ := List.mem_map.mp hx
    rfl
  have hsome : (fid Account.id (s.accounts.map
      (fun a => { a with isMotherAccount := false }))
      (Account.id { acc with isMotherAccount := true })).isSome := by
    show (fid Account.id _ acc.id).isSome
    rw [hkey, hacc]
    rfl
  simp only [updateBankAccount, Option.getD_some, eq_self_iff_true, if_true,
    State.findAccount, State.putAccount, hacc]
  exact countMother_put_true_unique _ _ hall hsome rfl

theorem bankOp_countMother_le (s : State) (op : BankOp)
    (h : countMother s.accounts ≤ 1) :
    countMother (applyBankOp s op).accounts ≤ 1 := by
  cases op with
  | create flag bal =>
    cases flag
    · simp only [applyBankOp, addBankAccount, Bool.false_eq_true, if_false]
      rw [countMother_append]
      simpa [countMother_cons, countMother] using h
    · exact Nat.le_of_eq (addBank_flag_one s bal)
  | update accId body =>
    match body with
    | none =>
      simp only [applyBankOp, updateBankAccount, Option.getD_none, Bool.false_eq_true,
        if_false]
      cases hfa : s.findAccount accId with
      | none =>
        simp only [hfa]
        exact h
      | some acc =>
        obtain ⟨hmem, hkey⟩ := fid_mem hfa
        have hfa2 : fid Account.id s.accounts acc.id = some acc := by
          rw [hkey]
          exact hfa
        have hps : put Account.id s.accounts
            { id := acc.id, currentBalance := acc.currentBalance,
              isMotherAccount := acc.isMotherAccount } = s.accounts := put_self hfa2
        simp only [hfa, Option.getD_none, State.putAccount]
        rw [hps]
        exact h
    | some false =>
      simp only [applyBankOp, updateBankAccount, Option.getD_some, Bool.false_eq_true,
        if_false]
      cases hfa : s.findAccount accId with
      | none =>
        simp only [hfa]
        exact h
      | some acc =>
        simp only [hfa, Option.getD_some, State.putAccount]
        exact le_trans (countMother_put_false _ _ rfl) h
    | some true =>
      by_cases hf : (fid Account.id s.accounts accId).isSome
      · exact Nat.le_of_eq (updateBank_flag_one s accId hf)
      · have hf1 : fid Account.id (s.accounts.map
            (fun a => { a with isMotherAccount := false })) accId = none := by
          cases hh : fid Account.id (s.accounts.map
              (fun a => { a with isMotherAccount := false })) accId with
          | none => rfl
          | some x =>
            exfalso
            apply hf
            rw [← fid_isSome_map_clear, hh]
            rfl
        simp only [applyBankOp, updateBankAccount, Option.getD_some, eq_self_iff_true,
          if_true, State.findAccount, hf1]
        rw [countMother_clear]
        exact Nat.zero_le 1
  | remove accId =>
    simp only [applyBankOp, deleteBankAccount]
    cases hfa : s.findAccount accId with
    | none =>
      simp only [hfa]
      exact h
    | some acc =>
      by_cases hpos : 0 < acc.currentBalance
      · simp only [hfa, if_pos hpos]
        exact h
      · simp only [hfa, if_neg hpos]
        exact le_trans (countMother_rem_le _ _) h

theorem bankSeq_countMother_le :
    ∀ (ops : List BankOp) (s : State), countMother s.accounts ≤ 1 →
      countMother (List.foldl applyBankOp s ops).accounts ≤ 1 := by
  intro ops
  induction ops with
  | nil => intro s h; exact h
  | cons op rest ih =>
    intro s h
    rw [List.foldl_cons]
    exact ih _ (bankOp_countMother_le s op h)

/-- C7 (counterexample): the single-primary state is not persistent after
"at least one call sets the primary flag on an existing account" — starting
from two flagless accounts, updating account 0 with isMotherAccount true
yields exactly one primary account, but a later update setting the flag to
false on that same account leaves zero primary accounts, not one. -/
theorem primary_flag_can_drop_to_zero :
    countMother (applyBankOp
        (⟨[⟨0, 0, false⟩, ⟨1, 0, false⟩], [], [], [], none, 2⟩ : State)
        (BankOp.update 0 (some true))).accounts = 1 ∧
    countMother (List.foldl applyBankOp
        (⟨[⟨0, 0, false⟩, ⟨1, 0, false⟩], [], [], [], none, 2⟩ : State)
        [BankOp.update 0 (some true), BankOp.update 0 (some false)]).accounts = 0 ∧
    (0 : Nat) ≠ 1 := by
  refine ⟨by decide, by decide, by decide⟩

/-- C7 (amended): every call that sets the primary flag — creating an
account with the flag, or updating an existing account with
isMotherAccount = true in the body — first clears the flag everywhere and
therefore leaves exactly one primary account; and every create / update /
delete call preserves the invariant that at most one account holds the
flag. (Exactly-one is not an invariant of all sequences: an update that
sets the flag to false can leave zero primary accounts.) -/
theorem single_primary_account :
    (∀ (s : State) (bal : ℚ),
      countMother ((addBankAccount s true bal).1).accounts = 1) ∧
    (∀ (s : State) (accId : Nat),
      (fid Account.id s.accounts accId).isSome →
      countMother ((updateBankAccount s accId (some true)).1).accounts = 1) ∧
    (∀ (ops : List BankOp) (s : State),
      countMother s.accounts ≤ 1 →
      countMother (List.foldl applyBankOp s ops).accounts ≤ 1) :=
  ⟨addBank_flag_one, updateBank_flag_one, bankSeq_countMother_le⟩

/-- C7 witness: setting the flag on account 0 of a two-account state (the
other account currently primary) leaves exactly one primary account. -/
theorem single_primary_account_witness :
    countMother ((updateBankAccount
        (⟨[⟨0, 0, false⟩, ⟨1, 0, true⟩], [], [], [], none, 2⟩ : State)
        0 (some true)).1).accounts = 1 :=
  single_primary_account.2.1 _ 0 (by decide)

theorem processMember_users_shape (orig : State) (motherId : Nat) (settings : FineSettings)
    (finePayers : List Nat) (today : Nat) (acc : State × ℚ) (v uid : Nat) (u' : Member)
    (hu : acc.1.findUser uid = some u') :
    ∃ t : ℚ, (processMember orig motherId settings finePayers today acc v).1.findUser uid
      = some { id := u'.id, shares := u'.shares,
               monthlySubscription := u'.monthlySubscription,
               joinMonth := u'.joinMonth, totalDeposited := t } := by
  by_cases hv : v = uid
  · subst hv
    refine ⟨u'.totalDeposited + (jsOr u'.shares 1 : ℚ) * 1000, ?_⟩
    exact processMember_users_self orig motherId settings finePayers today acc v u' hu
  · refine ⟨u'.totalDeposited, ?_⟩
    rw [processMember_users_ne orig motherId settings finePayers today acc v uid hv, hu]

theorem processMember_shape_preserved (orig s0 : State) (motherId : Nat)
    (settings : FineSettings) (finePayers : List Nat) (today : Nat) (acc : State × ℚ)
    (v : Nat)
    (hshape : ∀ uid u, s0.findUser uid = some u →
      ∃ t : ℚ, acc.1.findUser uid = some { id := u.id, shares := u.shares, monthlySubscription := u.monthlySubscription, joinMonth := u.joinMonth, totalDeposited := t }) :
    ∀ uid u, s0.findUser uid = some u →
      ∃ t : ℚ, (processMember orig motherId settings finePayers today acc v).1.findUser uid
        = some { id := u.id, shares := u.shares, monthlySubscription := u.monthlySubscription, joinMonth := u.joinMonth, totalDeposited := t } := by
  intro uid u hs0
  obtain ⟨t, ht⟩ := hshape uid u hs0
  obtain ⟨t2, ht2⟩ :=
    processMember_users_shape orig motherId settings finePayers today acc v uid _ ht
  exact ⟨t2, by rw [ht2]⟩

theorem processMember_ledger_share (orig s0 : State) (motherId : Nat)
    (settings : FineSettings) (finePayers : List Nat) (today : Nat) (acc : State × ℚ)
    (v : Nat)
    (hshape : ∀ uid u, s0.findUser uid = some u →
      ∃ t : ℚ, acc.1.findUser uid = some { id := u.id, shares := u.shares, monthlySubscription := u.monthlySubscription, joinMonth := u.joinMonth, totalDeposited := t }) :
    ∀ e ∈ (processMember orig motherId settings finePayers today acc v).1.ledger,
      e ∈ acc.1.ledger ∨ ShareEntryOK s0 e := by
  intro e he
  cases hfu : acc.1.findUser v with
  | none =>
    simp only [processMember, hfu] at he
    exact Or.inl he
  | some user =>
    have hshareOK : ∀ n : Nat, ShareEntryOK s0
        { id := n, user := some v, txType := TxType.deposit,
          category := "monthly_deposit", amount := (jsOr user.shares 1 : ℚ) * 1000,
          bankAccount := some motherId, referenceId := none,
          transferFrom := none, transferTo := none } := by
      intro n hcat uid u hused hs0
      obtain rfl : v = uid := Option.some_injective _ hused
      obtain ⟨t, hsh⟩ := hshape v u hs0
      rw [hfu] at hsh
      have husr : user = { id := u.id, shares := u.shares, monthlySubscription := u.monthlySubscription, joinMonth := u.joinMonth, totalDeposited := t } := Option.some_injective _ hsh
      show (jsOr user.shares 1 : ℚ) * 1000 = (jsOr u.shares 1 : ℚ) * 1000
      rw [husr]
    have hfineOK : ∀ (n : Nat) (q : ℚ), ShareEntryOK s0
        { id := n, user := some v, txType := TxType.deposit,
          category := "fine_payment", amount := q, bankAccount := some motherId,
          referenceId := none, transferFrom := none, transferTo := none } := by
      intro n q hcat
      have hstr : ("fine_payment" : String) = "monthly_deposit" := hcat
      exact absurd hstr (by decide)
    simp only [processMember, hfu] at he
    split_ifs at he with hp hf
    · simp only [State.putUser, State.appendEntry, List.mem_append,
        List.mem_singleton] at he
      rcases he with (he | rfl) | rfl
      · exact Or.inl he
      · exact Or.inr (hfineOK _ _)
      · exact Or.inr (hshareOK _)
    · simp only [State.putUser, State.appendEntry, List.mem_append,
        List.mem_singleton] at he
      rcases he with he | rfl
      · exact Or.inl he
      · exact Or.inr (hshareOK _)
    · simp only [State.putUser, State.appendEntry, List.mem_append,
        List.mem_singleton] at he
      rcases he with he | rfl
      · exact Or.inl he
      · exact Or.inr (hshareOK _)

theorem depositLoop_ledger_share (orig s0 : State) (motherId : Nat)
    (settings : FineSettings) (finePayers : List Nat) (today : Nat) :
    ∀ (userIds : List Nat) (acc : State × ℚ),
      (∀ uid u, s0.findUser uid = some u →
        ∃ t : ℚ, acc.1.findUser uid = some { id := u.id, shares := u.shares, monthlySubscription := u.monthlySubscription, joinMonth := u.joinMonth, totalDeposited := t }) →
      ∀ e ∈ (userIds.foldl (processMember orig motherId settings finePayers today) acc).1.ledger,
        e ∈ acc.1.ledger ∨ ShareEntryOK s0 e := by
  intro userIds
  induction userIds with
  | nil => intro acc _ e he; exact Or.inl he
  | cons v vs ih =>
    intro acc hshape e he
    rw [List.foldl_cons] at he
    rcases ih _ (processMember_shape_preserved orig s0 motherId settings finePayers today
        acc v hshape) e he with hin | hok
    · exact processMember_ledger_share orig s0 motherId settings finePayers today
        acc v hshape e hin
    · exact Or.inr hok

theorem processDeposit_share_entries (s : State) (userIds finePayers : List Nat)
    (today : Nat) :
    ∀ e ∈ (processDeposit s userIds finePayers today).1.ledger,
      e ∈ s.ledger ∨ ShareEntryOK s e := by
  cases hm : s.accounts.find? (fun a => a.isMotherAccount) with
  | none =>
    intro e he
    simp only [processDeposit, hm] at he
    exact Or.inl he
  | some mother =>
    intro e he
    simp only [processDeposit, hm, putAccount_ledger] at he
    refine depositLoop_ledger_share s s mother.id _ finePayers today userIds (s, 0) ?_ e he
    intro uid u hs0
    exact ⟨u.totalDeposited, hs0.trans rfl⟩

theorem processMember_ledger_mono (orig : State) (motherId : Nat) (settings : FineSettings)
    (finePayers : List Nat) (today : Nat) (acc : State × ℚ) (v : Nat) :
    ∀ e ∈ acc.1.ledger,
      e ∈ (processMember orig motherId settings finePayers today acc v).1.ledger := by
  intro e he
  cases hfu : acc.1.findUser v with
  | none => simpa [processMember, hfu] using he
  | some user =>
    simp only [processMember, hfu]
    split_ifs with hp hf
    · simp only [State.putUser, State.appendEntry, List.mem_append]
      exact Or.inl (Or.inl he)
    · simp only [State.putUser, State.appendEntry, List.mem_append]
      exact Or.inl he
    · simp only [State.putUser, State.appendEntry, List.mem_append]
      exact Or.inl he

theorem depositLoop_ledger_mono (orig : State) (motherId : Nat) (settings : FineSettings)
    (finePayers : List Nat) (today : Nat) :
    ∀ (userIds : List Nat) (acc : State × ℚ) (e : Entry), e ∈ acc.1.ledger →
      e ∈ (userIds.foldl (processMember orig motherId settings finePayers today) acc).1.ledger := by
  intro userIds
  induction userIds with
  | nil => intro acc e he; exact he
  | cons v vs ih =>
    intro acc e he
    rw [List.foldl_cons]
    exact ih _ e (processMember_ledger_mono orig motherId settings finePayers today acc v e he)

theorem depositLoop_emits_share (orig s0 : State) (motherId : Nat)
    (settings : FineSettings) (finePayers : List Nat) (today : Nat) :
    ∀ (userIds : List Nat) (acc : State × ℚ) (uid : Nat) (u : Member),
      uid ∈ userIds →
      s0.findUser uid = some u →
      (∀ uid' u', s0.findUser uid' = some u' →
        ∃ t : ℚ, acc.1.findUser uid' = some { id := u'.id, shares := u'.shares, monthlySubscription := u'.monthlySubscription, joinMonth := u'.joinMonth, totalDeposited := t }) →
      ∃ n : Nat,
        { id := n, user := some uid, txType := TxType.deposit,
          category := "monthly_deposit", amount := (jsOr u.shares 1 : ℚ) * 1000,
          bankAccount := some motherId, referenceId := none,
          transferFrom := none, transferTo := none }
          ∈ (userIds.foldl (processMember orig motherId settings finePayers today) acc).1.ledger := by
  intro userIds
  induction userIds with
  | nil => intro acc uid u hmem; exact absurd hmem (List.not_mem_nil uid)
  | cons v vs ih =>
    intro acc uid u hmem hs0 hshape
    rw [List.foldl_cons]
    rcases List.mem_cons.mp hmem with rfl | hm
    · obtain ⟨t, ht⟩ := hshape uid u hs0
      have hemit : ∃ n : Nat,
          { id := n, user := some uid, txType := TxType.deposit,
            category := "monthly_deposit", amount := (jsOr u.shares 1 : ℚ) * 1000,
            bankAccount := some motherId, referenceId := none,
            transferFrom := none, transferTo := none }
            ∈ (processMember orig motherId settings finePayers today acc uid).1.ledger := by
        simp only [processMember, ht, State.putUser, State.appendEntry]
        split_ifs with hp hf
        · exact ⟨_, List.mem_append.mpr (Or.inr (List.mem_singleton.mpr rfl))⟩
        · exact ⟨_, List.mem_append.mpr (Or.inr (List.mem_singleton.mpr rfl))⟩
        · exact ⟨_, List.mem_append.mpr (Or.inr (List.mem_singleton.mpr rfl))⟩
      obtain ⟨n, hn⟩ := hemit
      exact ⟨n, depositLoop_ledger_mono orig motherId settings finePayers today vs _ _ hn⟩
    · exact ih _ uid u hm hs0
        (processMember_shape_preserved orig s0 motherId settings finePayers today acc v hshape)

theorem processDeposit_emits_share (s : State) (userIds finePayers : List Nat)
    (today uid : Nat) (u : Member) (mother : Account)
    (hm : s.accounts.find? (fun a => a.isMotherAccount) = some mother)
    (hmem : uid ∈ userIds) (hu : s.findUser uid = some u) :
    ∃ n : Nat,
      { id := n, user := some uid, txType := TxType.deposit,
        category := "monthly_deposit", amount := (jsOr u.shares 1 : ℚ) * 1000,
        bankAccount := some mother.id, referenceId := none,
        transferFrom := none, transferTo := none }
        ∈ (processDeposit s userIds finePayers today).1.ledger := by
  simp only [processDeposit, hm, putAccount_ledger]
  refine depositLoop_emits_share s s mother.id _ finePayers today userIds (s, 0) uid u
    hmem hu ?_
  intro uid' u' hs0
  exact ⟨u'.totalDeposited, hs0.trans rfl⟩

/-- C8 (amended): for every member processed by the deposit batch —
arbitrary member list and arbitrary fine payers — every `monthly_deposit`
entry the batch emits for a member carries the fixed unit amount
(shares || 1) × 1000, such an entry is emitted for every member of the
batch, and the member's `totalDeposited` increases by exactly that amount;
the member's own `monthlySubscription` field is never consulted by the
deposit path. -/
theorem share_amount_fixed_unit_rate :
    (∀ (s : State) (userIds finePayers : List Nat) (today : Nat),
      ∀ e ∈ (processDeposit s userIds finePayers today).1.ledger,
        e ∈ s.ledger ∨ ShareEntryOK s e) ∧
    (∀ (s : State) (userIds finePayers : List Nat) (today uid : Nat)
        (u : Member) (mother : Account),
      s.accounts.find? (fun a => a.isMotherAccount) = some mother →
      uid ∈ userIds → s.findUser uid = some u →
      ∃ n : Nat,
        { id := n, user := some uid, txType := TxType.deposit,
          category := "monthly_deposit", amount := (jsOr u.shares 1 : ℚ) * 1000,
          bankAccount := some mother.id, referenceId := none,
          transferFrom := none, transferTo := none }
          ∈ (processDeposit s userIds finePayers today).1.ledger) ∧
    (∀ (s : State) (userIds finePayers : List Nat) (today uid : Nat)
        (u : Member) (mother : Account),
      s.accounts.find? (fun a => a.isMotherAccount) = some mother →
      userIds.Nodup → uid ∈ userIds → s.findUser uid = some u →
      (processDeposit s userIds finePayers today).1.findUser uid
        = some { u with totalDeposited :=
            u.totalDeposited + (jsOr u.shares 1 : ℚ) * 1000 }) :=
  ⟨processDeposit_share_entries,
   fun s userIds finePayers today uid u mother hm hmem hu =>
     processDeposit_emits_share s userIds finePayers today uid u mother hm hmem hu,
   fun s userIds finePayers today uid u mother hm hnd hmem hu =>
     processDeposit_totalDeposited s userIds finePayers today uid u mother hm hnd hmem hu⟩

/-- C8 witness: in a two-member batch, the member with 1 share and
subscription 700 still gets a 1000-taka increment and a 1000-taka share
entry. -/
theorem share_amount_fixed_unit_rate_witness :
    (∃ n : Nat,
      { id := n, user := some 2, txType := TxType.deposit,
        category := "monthly_deposit", amount := (jsOr 1 1 : ℚ) * 1000,
        bankAccount := some 0, referenceId := none,
        transferFrom := none, transferTo := none }
        ∈ (processDeposit (⟨[⟨0, 0, true⟩], [⟨1, 3, 500, 0, 0⟩, ⟨2, 1, 700, 0, 5⟩],
            [], [], none, 5⟩ : State) [1, 2] [] 7).1.ledger) ∧
    (processDeposit (⟨[⟨0, 0, true⟩], [⟨1, 3, 500, 0, 0⟩, ⟨2, 1, 700, 0, 5⟩],
        [], [], none, 5⟩ : State) [1, 2] [] 7).1.findUser 2
      = some { id := 2, shares := 1, monthlySubscription := 700, joinMonth := 0,
               totalDeposited := 5 + (jsOr 1 1 : ℚ) * 1000 } :=
  ⟨share_amount_fixed_unit_rate.2.1 _ [1, 2] [] 7 2 ⟨2, 1, 700, 0, 5⟩ ⟨0, 0, true⟩
      (by rfl) (by decide) (by rfl),
   share_amount_fixed_unit_rate.2.2 _ [1, 2] [] 7 2 ⟨2, 1, 700, 0, 5⟩ ⟨0, 0, true⟩
      (by rfl) (by decide) (by decide) (by rfl)⟩

theorem putUser_nextId (s : State) (u : Member) :
    (s.putUser u).nextId = s.nextId := rfl

theorem putAccount_nextId (s : State) (a : Account) :
    (s.putAccount a).nextId = s.nextId := rfl

theorem appendEntry_nextId (s : State) (e : Nat → Entry) :
    (s.appendEntry e).nextId = s.nextId + 1 := rfl

theorem reverseBank_accounts_congr (s1 s2 : State) (tx : Entry)
    (ha : s1.accounts = s2.accounts) :
    (reverseBank s1 tx).accounts = (reverseBank s2 tx).accounts := by
  cases hb : tx.bankAccount with
  | none => simp only [reverseBank, hb, ha]
  | some bId =>
    simp only [reverseBank, hb, State.findAccount, ha]
    cases hf : fid Account.id s2.accounts bId with
    | none =>
      simp only [hf]
      exact ha
    | some bank =>
      simp only [hf]
      split_ifs
      · simp only [State.putAccount, ha]
      · simp only [State.putAccount, ha]
      · exact ha

theorem reverseMemberDeposit_users_congr (s1 s2 : State) (tx : Entry)
    (hu : s1.users = s2.users) :
    (reverseMemberDeposit s1 tx).users = (reverseMemberDeposit s2 tx).users := by
  cases hb : tx.user with
  | none => simp only [reverseMemberDeposit, hb, hu]
  | some uId =>
    simp only [reverseMemberDeposit, hb, State.findUser, hu]
    split_ifs with hc
    · cases hf : fid Member.id s2.users uId with
      | none =>
        simp only [hf]
        exact hu
      | some user =>
        simp only [hf, State.putUser, hu]
    · exact hu

theorem reverseInvestmentProfit_investments_congr (s1 s2 : State) (tx : Entry)
    (hv : s1.investments = s2.investments) :
    (reverseInvestmentProfit s1 tx).investments
      = (reverseInvestmentProfit s2 tx).investments := by
  cases hb : tx.referenceId with
  | none => simp only [reverseInvestmentProfit, hb, hv]
  | some refId =>
    simp only [reverseInvestmentProfit, hb, State.findInvestment, hv]
    split_ifs with hc hd
    · cases hf : fid Investment.id s2.investments refId with
      | none =>
        simp only [hf]
        exact hv
      | some project => simp only [hf, State.putInvestment, hv]
    · cases hf : fid Investment.id s2.investments refId with
      | none =>
        simp only [hf]
        exact hv
      | some project => simp only [hf, State.putInvestment, hv]
    · exact hv

theorem deleteTransaction_core_congr (s1 s2 : State) (i : Nat)
    (ha : s1.accounts = s2.accounts) (hu : s1.users = s2.users)
    (hv : s1.investments = s2.investments) (hl : s1.ledger = s2.ledger) :
    (deleteTransaction s1 i).1.accounts = (deleteTransaction s2 i).1.accounts ∧
    (deleteTransaction s1 i).1.users = (deleteTransaction s2 i).1.users ∧
    (deleteTransaction s1 i).1.investments = (deleteTransaction s2 i).1.investments ∧
    (deleteTransaction s1 i).1.ledger = (deleteTransaction s2 i).1.ledger := by
  simp only [deleteTransaction, hl]
  cases htx : fid Entry.id s2.ledger i with
  | none =>
    simp only [htx]
    exact ⟨ha, hu, hv, hl⟩
  | some tx =>
    simp only [htx]
    refine ⟨?_, ?_, ?_, ?_⟩
    · simp only [reverseInvestmentProfit_accounts, reverseMemberDeposit_accounts]
      exact reverseBank_accounts_congr s1 s2 tx ha
    · simp only [reverseInvestmentProfit_users]
      refine reverseMemberDeposit_users_congr _ _ tx ?_
      simp only [reverseBank_users, hu]
    · refine reverseInvestmentProfit_investments_congr _ _ tx ?_
      simp only [reverseMemberDeposit_investments, reverseBank_investments, hv]
    · simp only [reverseInvestmentProfit_ledger, reverseMemberDeposit_ledger,
        reverseBank_ledger, hl]

theorem dels_core_congr (ids : List Nat) : ∀ (s1 s2 : State),
    s1.accounts = s2.accounts → s1.users = s2.users →
    s1.investments = s2.investments → s1.ledger = s2.ledger →
    (ids.foldl (fun t i => (deleteTransaction t i).1) s1).accounts
        = (ids.foldl (fun t i => (deleteTransaction t i).1) s2).accounts ∧
    (ids.foldl (fun t i => (deleteTransaction t i).1) s1).users
        = (ids.foldl (fun t i => (deleteTransaction t i).1) s2).users ∧
    (ids.foldl (fun t i => (deleteTransaction t i).1) s1).investments
        = (ids.foldl (fun t i => (deleteTransaction t i).1) s2).investments ∧
    (ids.foldl (fun t i => (deleteTransaction t i).1) s1).ledger
        = (ids.foldl (fun t i => (deleteTransaction t i).1) s2).ledger := by
  induction ids with
  | nil =>
    intro s1 s2 ha hu hv hl
    exact ⟨ha, hu, hv, hl⟩
  | cons i is ih =>
    intro s1 s2 ha hu hv hl
    obtain ⟨ha2, hu2, hv2, hl2⟩ := deleteTransaction_core_congr s1 s2 i ha hu hv hl
    simpa only [List.foldl_cons] using ih _ _ ha2 hu2 hv2 hl2

theorem processMember_fresh (orig : State) (motherId : Nat) (settings : FineSettings)
    (finePayers : List Nat) (today : Nat) (acc : State × ℚ) (v : Nat)
    (h : ∀ e ∈ acc.1.ledger, e.id < acc.1.nextId) :
    ∀ e ∈ (processMember orig motherId settings finePayers today acc v).1.ledger,
      e.id < (processMember orig motherId settings finePayers today acc v).1.nextId := by
  cases hfu : acc.1.findUser v with
  | none => simpa [processMember, hfu] using h
  | some user =>
    simp only [processMember, hfu]
    split_ifs with hp hf
    · intro e he
      simp only [appendEntry_ledger, putUser_ledger, appendEntry_nextId, putUser_nextId,
        List.mem_append, List.mem_singleton] at he ⊢
      rcases he with (he | rfl) | rfl
      · have := h e he
        omega
      · show acc.1.nextId < acc.1.nextId + 1 + 1
        omega
      · show acc.1.nextId + 1 < acc.1.nextId + 1 + 1
        omega
    · intro e he
      simp only [appendEntry_ledger, putUser_ledger, appendEntry_nextId, putUser_nextId,
        List.mem_append, List.mem_singleton] at he ⊢
      rcases he with he | rfl
      · have := h e he
        omega
      · show acc.1.nextId < acc.1.nextId + 1
        omega
    · intro e he
      simp only [appendEntry_ledger, putUser_ledger, appendEntry_nextId, putUser_nextId,
        List.mem_append, List.mem_singleton] at he ⊢
      rcases he with he | rfl
      · have := h e he
        omega
      · show acc.1.nextId < acc.1.nextId + 1
        omega

theorem depositLoop_fresh (orig : State) (motherId : Nat) (settings : FineSettings)
    (finePayers : List Nat) (today : Nat) :
    ∀ (userIds : List Nat) (acc : State × ℚ),
      (∀ e ∈ acc.1.ledger, e.id < acc.1.nextId) →
      ∀ e ∈ (userIds.foldl (processMember orig motherId settings finePayers today) acc).1.ledger,
        e.id < (userIds.foldl (processMember orig motherId settings finePayers today) acc).1.nextId := by
  intro userIds
  induction userIds with
  | nil => intro acc h; exact h
  | cons v vs ih =>
    intro acc h
    rw [List.foldl_cons]
    exact ih _ (processMember_fresh orig motherId settings finePayers today acc v h)

theorem processMember_ledger_le (orig : State) (motherId : Nat) (settings : FineSettings)
    (finePayers : List Nat) (today : Nat) (acc : State × ℚ) (v : Nat) :
    acc.1.ledger.length
      ≤ (processMember orig motherId settings finePayers today acc v).1.ledger.length := by
  cases hfu : acc.1.findUser v with
  | none => simp [processMember, hfu]
  | some user =>
    simp only [processMember, hfu]
    split_ifs with hp hf
    · simp only [appendEntry_ledger, putUser_ledger, List.length_append,
        List.length_singleton]
      omega
    · simp only [appendEntry_ledger, putUser_ledger, List.length_append,
        List.length_singleton]
      omega
    · simp only [appendEntry_ledger, putUser_ledger, List.length_append,
        List.length_singleton]
      omega

theorem depositLoop_ledger_le (orig : State) (motherId : Nat) (settings : FineSettings)
    (finePayers : List Nat) (today : Nat) :
    ∀ (userIds : List Nat) (acc : State × ℚ),
      acc.1.ledger.length
        ≤ (userIds.foldl (processMember orig motherId settings finePayers today) acc).1.ledger.length := by
  intro userIds
  induction userIds with
  | nil => intro acc; exact Nat.le_refl _
  | cons v vs ih =>
    intro acc
    rw [List.foldl_cons]
    exact le_trans (processMember_ledger_le orig motherId settings finePayers today acc v)
      (ih _)

theorem delete_snoc_share (s r1 : State) (r2 share : ℚ) (v : Nat)
    (user : Member) (mother : Account) (w : State)
    (hra : r1.accounts = s.accounts)
    (hfm : fid Account.id s.accounts mother.id = some mother)
    (hrf : ∀ e ∈ r1.ledger, e.id < r1.nextId)
    (hfu : r1.findUser v = some user)
    (hw : w = ((r1.putUser
        { user with totalDeposited := user.totalDeposited + share }).appendEntry
          (fun n =>
            { id := n, user := some v, txType := TxType.deposit,
              category := "monthly_deposit", amount := share,
              bankAccount := some mother.id, referenceId := none,
              transferFrom := none, transferTo := none })).putAccount
        { mother with currentBalance := mother.currentBalance + (r2 + share) }) :
    (deleteTransaction w r1.nextId).1.accounts
        = put Account.id s.accounts
            { mother with currentBalance := mother.currentBalance + r2 } ∧
    (deleteTransaction w r1.nextId).1.users = r1.users ∧
    (deleteTransaction w r1.nextId).1.investments = r1.investments ∧
    (deleteTransaction w r1.nextId).1.ledger = r1.ledger := by
  obtain ⟨hmemu, hkeyu⟩ := fid_mem hfu
  have hfuv : fid Member.id r1.users user.id = some user := by rw [hkeyu]; exact hfu
  have hfm1 : fid Account.id r1.accounts mother.id = some mother := by
    rw [hra]
    exact hfm
  have hne : ∀ x ∈ r1.ledger, x.id ≠ r1.nextId := fun x hx => by
    have := hrf x hx
    omega
  subst hw
  simp only [deleteTransaction, State.putAccount, State.putUser, State.appendEntry]
  rw [fid_append_right _ hne, fid_cons, if_pos rfl]
  dsimp only
  have hput1 : fid Account.id (put Account.id r1.accounts { id := mother.id, currentBalance := mother.currentBalance + (r2 + share), isMotherAccount := mother.isMotherAccount }) mother.id = some { id := mother.id, currentBalance := mother.currentBalance + (r2 + share), isMotherAccount := mother.isMotherAccount } :=
    fid_put_self _ hfm1
  have hpp : put Account.id (put Account.id r1.accounts { id := mother.id, currentBalance := mother.currentBalance + (r2 + share), isMotherAccount := mother.isMotherAccount }) { id := mother.id, currentBalance := mother.currentBalance + (r2 + share) - share, isMotherAccount := mother.isMotherAccount } = put Account.id s.accounts { id := mother.id, currentBalance := mother.currentBalance + r2, isMotherAccount := mother.isMotherAccount } := by
    rw [put_put Account.id r1.accounts { id := mother.id, currentBalance := mother.currentBalance + (r2 + share), isMotherAccount := mother.isMotherAccount } { id := mother.id, currentBalance := mother.currentBalance + (r2 + share) - share, isMotherAccount := mother.isMotherAccount } rfl, hra]
    have harith : mother.currentBalance + (r2 + share) - share = mother.currentBalance + r2 := by
      ring
    rw [harith]
  have hputu : fid Member.id (put Member.id r1.users { id := user.id, shares := user.shares, monthlySubscription := user.monthlySubscription, joinMonth := user.joinMonth, totalDeposited := user.totalDeposited + share }) v = some { id := user.id, shares := user.shares, monthlySubscription := user.monthlySubscription, joinMonth := user.joinMonth, totalDeposited := user.totalDeposited + share } := by
    rw [← hkeyu]
    exact fid_put_self _ hfuv
  have hppu : put Member.id (put Member.id r1.users { id := user.id, shares := user.shares, monthlySubscription := user.monthlySubscription, joinMonth := user.joinMonth, totalDeposited := user.totalDeposited + share }) { id := user.id, shares := user.shares, monthlySubscription := user.monthlySubscription, joinMonth := user.joinMonth, totalDeposited := user.totalDeposited } = r1.users := by
    rw [put_put Member.id r1.users { id := user.id, shares := user.shares, monthlySubscription := user.monthlySubscription, joinMonth := user.joinMonth, totalDeposited := user.totalDeposited + share } { id := user.id, shares := user.shares, monthlySubscription := user.monthlySubscription, joinMonth := user.joinMonth, totalDeposited := user.totalDeposited } rfl]
    exact put_self hfuv
  have hrem : rem Entry.id (r1.ledger ++ [{ id := r1.nextId, user := some v, txType := TxType.deposit, category := "monthly_deposit", amount := share, bankAccount := some mother.id, referenceId := none, transferFrom := none, transferTo := none }]) r1.nextId = r1.ledger := by
    rw [rem_append_right _ hne]
    simp [rem]
  simp [reverseBank, reverseMemberDeposit, reverseInvestmentProfit,
    State.findAccount, State.putAccount, State.findUser, State.putUser,
    hput1, hpp, hputu, hppu, hrem]

theorem delete_snoc_fine (s r1 : State) (r2 fine : ℚ) (v : Nat) (mother : Account)
    (X : State)
    (hfm : fid Account.id s.accounts mother.id = some mother)
    (hXa : X.accounts = put Account.id s.accounts
        { mother with currentBalance := mother.currentBalance + (r2 + fine) })
    (hXu : X.users = r1.users)
    (hXv : X.investments = r1.investments)
    (hXl : X.ledger = r1.ledger ++
        [{ id := r1.nextId, user := some v, txType := TxType.deposit,
           category := "fine_payment", amount := fine, bankAccount := some mother.id,
           referenceId := none, transferFrom := none, transferTo := none }])
    (hrf : ∀ e ∈ r1.ledger, e.id < r1.nextId) :
    (deleteTransaction X r1.nextId).1.accounts
        = put Account.id s.accounts
            { mother with currentBalance := mother.currentBalance + r2 } ∧
    (deleteTransaction X r1.nextId).1.users = r1.users ∧
    (deleteTransaction X r1.nextId).1.investments = r1.investments ∧
    (deleteTransaction X r1.nextId).1.ledger = r1.ledger := by
  have hne : ∀ x ∈ r1.ledger, x.id ≠ r1.nextId := fun x hx => by
    have := hrf x hx
    omega
  have hput1 : fid Account.id X.accounts mother.id = some { id := mother.id, currentBalance := mother.currentBalance + (r2 + fine), isMotherAccount := mother.isMotherAccount } := by
    rw [hXa]
    exact fid_put_self _ hfm
  have hpp : put Account.id X.accounts { id := mother.id, currentBalance := mother.currentBalance + (r2 + fine) - fine, isMotherAccount := mother.isMotherAccount } = put Account.id s.accounts { id := mother.id, currentBalance := mother.currentBalance + r2, isMotherAccount := mother.isMotherAccount } := by
    rw [hXa, put_put Account.id s.accounts { id := mother.id, currentBalance := mother.currentBalance + (r2 + fine), isMotherAccount := mother.isMotherAccount } { id := mother.id, currentBalance := mother.currentBalance + (r2 + fine) - fine, isMotherAccount := mother.isMotherAccount } rfl]
    have harith : mother.currentBalance + (r2 + fine) - fine = mother.currentBalance + r2 := by
      ring
    rw [harith]
  have hrem : rem Entry.id (r1.ledger ++ [{ id := r1.nextId, user := some v, txType := TxType.deposit, category := "fine_payment", amount := fine, bankAccount := some mother.id, referenceId := none, transferFrom := none, transferTo := none }]) r1.nextId = r1.ledger := by
    rw [rem_append_right _ hne]
    simp [rem]
  simp only [deleteTransaction, hXl]
  rw [fid_append_right _ hne, fid_cons, if_pos rfl]
  dsimp only
  simp [reverseBank, reverseMemberDeposit, reverseInvestmentProfit,
    State.findAccount, State.putAccount, hput1, hpp, hXu, hXv, hXl, hrem]

theorem roundtrip_deposit_batch (s : State) (finePayers : List Nat) (today : Nat)
    (mother : Account) (hnd : AccIdsNodup s) (hL : LedgerFresh s)
    (hm : s.accounts.find? (fun a => a.isMotherAccount) = some mother) :
    ∀ userIds : List Nat,
      Restores s
        (((((processDeposit s userIds finePayers today).1.ledger.drop
              s.ledger.length).map Entry.id).reverse).foldl
          (fun t i => (deleteTransaction t i).1)
          (processDeposit s userIds finePayers today).1) := by
  have hmemm : mother ∈ s.accounts := List.mem_of_find?_eq_some hm
  have hfm : fid Account.id s.accounts mother.id = some mother := fid_of_mem_nodup hnd hmemm
  intro userIds
  induction userIds using List.reverseRecOn with
  | nil =>
    simp only [processDeposit, hm, List.foldl_nil, putAccount_ledger, List.drop_length,
      List.map_nil, List.reverse_nil]
    refine ⟨?_, rfl, rfl, rfl⟩
    show put Account.id s.accounts { id := mother.id, currentBalance := mother.currentBalance + 0, isMotherAccount := mother.isMotherAccount } = s.accounts
    have hz : mother.currentBalance + 0 = mother.currentBalance := add_zero _
    rw [hz]
    exact put_self hfm
  | append_singleton us v ih =>
    simp only [processDeposit, hm] at ih ⊢
    rw [List.foldl_append, List.foldl_cons, List.foldl_nil]
    generalize hgen : List.foldl (processMember s mother.id
        (s.fineSettings.getD { gracePeriodMonths := 2, finePercentage := 5 })
        finePayers today) (s, (0 : ℚ)) us = r
    rw [hgen] at ih
    have hra : r.1.accounts = s.accounts := by
      rw [← hgen]
      exact depositLoop_accounts s mother.id _ finePayers today us (s, 0)
    have hrf : ∀ e ∈ r.1.ledger, e.id < r.1.nextId := by
      rw [← hgen]
      exact depositLoop_fresh s mother.id _ finePayers today us (s, 0) hL
    have hlen : s.ledger.length ≤ r.1.ledger.length := by
      rw [← hgen]
      exact depositLoop_ledger_le s mother.id _ finePayers today us (s, 0)
    simp only [putAccount_ledger] at ih
    cases hfu : r.1.findUser v with
    | none =>
      simp only [processMember, hfu]
      simp only [putAccount_ledger]
      exact ih
    | some user =>
      simp only [processMember, hfu]
      generalize hfq : (calculateFineLogicMember user
          (s.fineSettings.getD { gracePeriodMonths := 2, finePercentage := 5 })
          (totalReductions s.ledger v) today).fine = fq
      generalize hsq : ((jsOr user.shares 1 : ℚ) * 1000) = sq
      split_ifs with hp hf
      · dsimp only
        simp only [putAccount_ledger, appendEntry_ledger, putUser_ledger,
          putUser_nextId, appendEntry_nextId]
        have h1 : s.ledger.length ≤ (r.1.ledger ++ [({ id := r.1.nextId, user := some v, txType := TxType.deposit, category := "fine_payment", amount := fq, bankAccount := some mother.id, referenceId := none, transferFrom := none, transferTo := none } : Entry)]).length := by
          simp only [List.length_append, List.length_singleton]
          omega
        rw [List.drop_append_of_le_length h1, List.drop_append_of_le_length hlen]
        simp only [List.map_append, List.map_singleton, List.reverse_append,
          List.reverse_singleton, List.singleton_append, List.cons_append,
          List.nil_append, List.foldl_cons]
        have hra2 : (r.1.appendEntry (fun n => { id := n, user := some v, txType := TxType.deposit, category := "fine_payment", amount := fq, bankAccount := some mother.id, referenceId := none, transferFrom := none, transferTo := none })).accounts = s.accounts := by
          simp only [appendEntry_accounts]
          exact hra
        have hrf2 : ∀ e ∈ (r.1.appendEntry (fun n => { id := n, user := some v, txType := TxType.deposit, category := "fine_payment", amount := fq, bankAccount := some mother.id, referenceId := none, transferFrom := none, transferTo := none })).ledger, e.id < (r.1.appendEntry (fun n => { id := n, user := some v, txType := TxType.deposit, category := "fine_payment", amount := fq, bankAccount := some mother.id, referenceId := none, transferFrom := none, transferTo := none })).nextId := by
          simp only [appendEntry_ledger, appendEntry_nextId, List.mem_append,
            List.mem_singleton]
          rintro e (he | rfl)
          · have := hrf e he
            omega
          · show r.1.nextId < r.1.nextId + 1
            omega
        have hfu2 : (r.1.appendEntry (fun n => { id := n, user := some v, txType := TxType.deposit, category := "fine_payment", amount := fq, bankAccount := some mother.id, referenceId := none, transferFrom := none, transferTo := none })).findUser v = some user := by
          simp only [findUser_appendEntry]
          exact hfu
        have hw : (((r.1.appendEntry (fun n => { id := n, user := some v, txType := TxType.deposit, category := "fine_payment", amount := fq, bankAccount := some mother.id, referenceId := none, transferFrom := none, transferTo := none })).putUser { user with totalDeposited := user.totalDeposited + sq }).appendEntry (fun n => { id := n, user := some v, txType := TxType.deposit, category := "monthly_deposit", amount := sq, bankAccount := some mother.id, referenceId := none, transferFrom := none, transferTo := none })).putAccount { mother with currentBalance := mother.currentBalance + (r.2 + (sq + fq)) } = (((r.1.appendEntry (fun n => { id := n, user := some v, txType := TxType.deposit, category := "fine_payment", amount := fq, bankAccount := some mother.id, referenceId := none, transferFrom := none, transferTo := none })).putUser { user with totalDeposited := user.totalDeposited + sq }).appendEntry (fun n => { id := n, user := some v, txType := TxType.deposit, category := "monthly_deposit", amount := sq, bankAccount := some mother.id, referenceId := none, transferFrom := none, transferTo := none })).putAccount { mother with currentBalance := mother.currentBalance + (r.2 + fq + sq) } := by
          have harr : mother.currentBalance + (r.2 + (sq + fq)) = mother.currentBalance + (r.2 + fq + sq) := by
            ring
          rw [harr]
        obtain ⟨ha1, hu1, hv1, hl1⟩ := delete_snoc_share s
          (r.1.appendEntry (fun n => { id := n, user := some v, txType := TxType.deposit, category := "fine_payment", amount := fq, bankAccount := some mother.id, referenceId := none, transferFrom := none, transferTo := none }))
          (r.2 + fq) sq v user mother _ hra2 hfm hrf2 hfu2 hw
        simp only [appendEntry_nextId, appendEntry_users, appendEntry_investments,
          appendEntry_ledger] at ha1 hu1 hv1 hl1
        obtain ⟨ha2, hu2, hv2, hl2⟩ := delete_snoc_fine s r.1 r.2 fq v mother _ hfm
          ha1 hu1 hv1 hl1 hrf
        have hA := ha2.trans (show put Account.id s.accounts { mother with currentBalance := mother.currentBalance + r.2 } = (r.1.putAccount { mother with currentBalance := mother.currentBalance + r.2 }).accounts from by simp only [putAccount_accounts, hra])
        have hU := hu2.trans (putAccount_users r.1 { mother with currentBalance := mother.currentBalance + r.2 }).symm
        have hV := hv2.trans (putAccount_investments r.1 { mother with currentBalance := mother.currentBalance + r.2 }).symm
        have hLL := hl2.trans (putAccount_ledger r.1 { mother with currentBalance := mother.currentBalance + r.2 }).symm
        obtain ⟨ca, cu, cv, cl⟩ := dels_core_congr
          (((r.1.ledger.drop s.ledger.length).map Entry.id).reverse) _ _ hA hU hV hLL
        obtain ⟨ia, iu, iv, il⟩ := ih
        exact ⟨ca.trans ia, cu.trans iu, cv.trans iv, cl.trans il⟩
      · dsimp only
        simp only [putAccount_ledger, appendEntry_ledger, putUser_ledger,
          putUser_nextId]
        rw [List.drop_append_of_le_length hlen]
        simp only [List.map_append, List.map_singleton, List.reverse_append,
          List.reverse_singleton, List.singleton_append, List.foldl_cons]
        obtain ⟨ha2, hu2, hv2, hl2⟩ := delete_snoc_share s r.1 r.2 sq v user mother _
          hra hfm hrf hfu rfl
        have hA := ha2.trans (show put Account.id s.accounts { mother with currentBalance := mother.currentBalance + r.2 } = (r.1.putAccount { mother with currentBalance := mother.currentBalance + r.2 }).accounts from by simp only [putAccount_accounts, hra])
        have hU := hu2.trans (putAccount_users r.1 { mother with currentBalance := mother.currentBalance + r.2 }).symm
        have hV := hv2.trans (putAccount_investments r.1 { mother with currentBalance := mother.currentBalance + r.2 }).symm
        have hLL := hl2.trans (putAccount_ledger r.1 { mother with currentBalance := mother.currentBalance + r.2 }).symm
        obtain ⟨ca, cu, cv, cl⟩ := dels_core_congr
          (((r.1.ledger.drop s.ledger.length).map Entry.id).reverse) _ _ hA hU hV hLL
        obtain ⟨ia, iu, iv, il⟩ := ih
        exact ⟨ca.trans ia, cu.trans iu, cv.trans iv, cl.trans il⟩
      · dsimp only
        simp only [putAccount_ledger, appendEntry_ledger, putUser_ledger,
          putUser_nextId]
        rw [List.drop_append_of_le_length hlen]
        simp only [List.map_append, List.map_singleton, List.reverse_append,
          List.reverse_singleton, List.singleton_append, List.foldl_cons]
        obtain ⟨ha2, hu2, hv2, hl2⟩ := delete_snoc_share s r.1 r.2 sq v user mother _
          hra hfm hrf hfu rfl
        have hA := ha2.trans (show put Account.id s.accounts { mother with currentBalance := mother.currentBalance + r.2 } = (r.1.putAccount { mother with currentBalance := mother.currentBalance + r.2 }).accounts from by simp only [putAccount_accounts, hra])
        have hU := hu2.trans (putAccount_users r.1 { mother with currentBalance := mother.currentBalance + r.2 }).symm
        have hV := hv2.trans (putAccount_investments r.1 { mother with currentBalance := mother.currentBalance + r.2 }).symm
        have hLL := hl2.trans (putAccount_ledger r.1 { mother with currentBalance := mother.currentBalance + r.2 }).symm
        obtain ⟨ca, cu, cv, cl⟩ := dels_core_congr
          (((r.1.ledger.drop s.ledger.length).map Entry.id).reverse) _ _ hA hU hV hLL
        obtain ⟨ia, iu, iv, il⟩ := ih
        exact ⟨ca.trans ia, cu.trans iu, cv.trans iv, cl.trans il⟩

/-- C4 (amended): immediately deleting the resulting entries restores the
accounts, users, investments and ledger to their pre-operation contents
(in particular every balance, `lifetimeDeposited` and `cumulativeProfit`)
for: an expense, a fine collection, an investment profit/expense, and a
whole deposit batch — any member list and any fine-payer list — whose
resulting entries are deleted in reverse order of creation.  The round
trip fails for transfer and investment-capital entries, whose deletion
leaves the moved or debited balances in place. -/
theorem reversal_roundtrip_restores :
    (∀ (s : State) (amount : ℚ) (bankId : Nat) (cat : String) (bank : Account),
      LedgerFresh s → s.findAccount bankId = some bank →
      Restores s (deleteTransaction (addExpense s amount bankId cat).1 s.nextId).1) ∧
    (∀ (s : State) (userId : Nat) (amount : ℚ) (bankId : Nat) (bank : Account),
      LedgerFresh s → s.findAccount bankId = some bank →
      Restores s (deleteTransaction (collectPaidFine s userId amount bankId).1 s.nextId).1) ∧
    (∀ (s : State) (invId : Nat) (amount : ℚ) (isExpense : Bool) (bankId : Nat)
        (inv : Investment) (bank : Account),
      LedgerFresh s → s.findInvestment invId = some inv → s.findAccount bankId = some bank →
      Restores s (deleteTransaction
        (recordInvestmentProfit s invId amount isExpense bankId).1 s.nextId).1) ∧
    (∀ (s : State) (userIds finePayers : List Nat) (today : Nat) (mother : Account),
      AccIdsNodup s → LedgerFresh s →
      s.accounts.find? (fun a => a.isMotherAccount) = some mother →
      Restores s
        (((((processDeposit s userIds finePayers today).1.ledger.drop
              s.ledger.length).map Entry.id).reverse).foldl
          (fun t i => (deleteTransaction t i).1)
          (processDeposit s userIds finePayers today).1)) :=
  ⟨fun s amount bankId cat bank hL hb => roundtrip_expense s amount bankId cat bank hL hb,
   fun s userId amount bankId bank hL hb =>
     roundtrip_collectFine s userId amount bankId bank hL hb,
   fun s invId amount isExpense bankId inv bank hL hv hb =>
     roundtrip_outcome s invId amount isExpense bankId inv bank hL hv hb,
   fun s userIds finePayers today mother hnd hL hm =>
     roundtrip_deposit_batch s finePayers today mother hnd hL hm userIds⟩

/-- C4 witness: the expense round trip on a concrete one-account state, and
the deposit-batch round trip on a concrete two-member batch. -/
theorem reversal_roundtrip_restores_witness :
    Restores (⟨[⟨0, 100, true⟩], [], [], [], none, 1⟩ : State)
      (deleteTransaction (addExpense
        (⟨[⟨0, 100, true⟩], [], [], [], none, 1⟩ : State) 30 0 "General Expense").1 1).1 ∧
    Restores (⟨[⟨0, 100, true⟩], [⟨1, 2, 1000, 0, 0⟩, ⟨2, 1, 1000, 0, 50⟩],
        [], [], none, 3⟩ : State)
      (((((processDeposit (⟨[⟨0, 100, true⟩], [⟨1, 2, 1000, 0, 0⟩, ⟨2, 1, 1000, 0, 50⟩],
              [], [], none, 3⟩ : State) [1, 2] [] 7).1.ledger.drop
            (⟨[⟨0, 100, true⟩], [⟨1, 2, 1000, 0, 0⟩, ⟨2, 1, 1000, 0, 50⟩],
              [], [], none, 3⟩ : State).ledger.length).map Entry.id).reverse).foldl
        (fun t i => (deleteTransaction t i).1)
        (processDeposit (⟨[⟨0, 100, true⟩], [⟨1, 2, 1000, 0, 0⟩, ⟨2, 1, 1000, 0, 50⟩],
            [], [], none, 3⟩ : State) [1, 2] [] 7).1) :=
  ⟨reversal_roundtrip_restores.1 (⟨[⟨0, 100, true⟩], [], [], [], none, 1⟩ : State)
      30 0 "General Expense" ⟨0, 100, true⟩
      (by intro e he; exact absurd he (List.not_mem_nil e))
      (by rfl),
   reversal_roundtrip_restores.2.2.2
      (⟨[⟨0, 100, true⟩], [⟨1, 2, 1000, 0, 0⟩, ⟨2, 1, 1000, 0, 50⟩],
        [], [], none, 3⟩ : State) [1, 2] [] 7 ⟨0, 100, true⟩
      (by unfold AccIdsNodup; decide)
      (by intro e he; exact absurd he (List.not_mem_nil e))
      (by rfl)⟩

end Somiti
